import Mathlib

/-
  Verification development for the PhasmaDB server-side query and indexing
  engine (src/server/dbfuncs.py, src/server/server.py) and the client-side
  cryptographic envelope (src/client/phasmadb.py).

  The Python code is shallowly embedded: dictionaries become association
  lists (Python dicts have unique keys and preserve insertion order),
  JSON values become the inductive type JVal, the backing MongoDB store
  becomes a list of stored rows with an explicit filter semantics, and a
  Python call that can raise an uncaught exception returns none.
-/

/-- JSON-ish values, used for wire payloads, operands and responses. -/
inductive JVal where
  | jnull
  | jbool (b : Bool)
  | jint (n : Int)
  | jstr (s : String)
  | jarr (l : List JVal)
  | jobj (entries : List (String × JVal))

/-- Python truthiness of a JSON value (None, False, 0, empty string,
empty list and empty dict are falsy). -/
def pyTruthy : JVal → Bool
  | .jnull => false
  | .jbool b => b
  | .jint n => n != 0
  | .jstr s => s != ""
  | .jarr l => !l.isEmpty
  | .jobj entries => !entries.isEmpty

/-- Python str() on a JSON value.  The container cases approximate the
Python repr; they are never reached by the properties proved below. -/
def pyStr : JVal → String
  | .jnull => "None"
  | .jbool b => if b then "True" else "False"
  | .jint n => toString n
  | .jstr s => s
  | .jarr _ => "[...]"
  | .jobj _ => "[...]"

/-- The first character of a string, if any (Python s[0], which raises
IndexError on an empty string). -/
def strHead0 (s : String) : Option Char := s.toList.head?

/-- Decimal digit parsing for the string case of Python int(). -/
def digitsToNat : List Char → Option Nat
  | [] => none
  | cs => go cs 0
where
  go : List Char → Nat → Option Nat
  | [], acc => some acc
  | c :: rest, acc =>
    if '0' ≤ c ∧ c ≤ '9' then go rest (acc * 10 + (c.toNat - 48)) else none

/-- Integer parsing of a decimal string with an optional leading minus
sign. -/
def parseIntString (s : String) : Option Int :=
  match s.toList with
  | '-' :: cs => (digitsToNat cs).map (fun n => -(n : Int))
  | cs => (digitsToNat cs).map (fun n => (n : Int))

/-- Python int() on a JSON value: none models a raised ValueError or
TypeError.  Numeric strings are parsed; the model ignores the whitespace,
plus-sign and underscore forms Python also accepts, which no property
below exercises. -/
def pyInt : JVal → Option Int
  | .jint n => some n
  | .jbool b => some (if b then 1 else 0)
  | .jstr s => parseIntString s
  | _ => none

/-- A stored index value: integers for sort and unique columns, a string
or a list of strings for text and unique_text columns (dbfuncs.py
insert_datum coerces every accepted value into one of these shapes). -/
inductive DBValue where
  | vInt (n : Int)
  | vStr (s : String)
  | vList (l : List String)
deriving DecidableEq

/-- A stored index value rendered back to JSON (used when an existing
row seeds the missing indexed values of a partial update). -/
def dbValueToJVal : DBValue → JVal
  | .vInt n => .jint n
  | .vStr s => .jstr s
  | .vList l => .jarr (l.map .jstr)

/-- A document of a per-table collection: row_id, the indexed values and
the opaque extra blob.  The backing-store _id is not modelled. -/
structure StoredRow where
  row_id : String
  index : List (String × DBValue)
  extra : String
deriving DecidableEq

/-- The result type of dbfuncs.py (SuccessResult / FailureResult). -/
inductive DBResult (α : Type) where
  | SuccessResult (result : α)
  | FailureResult (code : Int)
deriving DecidableEq

/-- as_success of dbfuncs.py. -/
def as_success {α : Type} : DBResult α → Option α
  | .SuccessResult r => some r
  | .FailureResult _ => none

/-- as_failure of dbfuncs.py. -/
def as_failure {α : Type} : DBResult α → Option Int
  | .SuccessResult _ => none
  | .FailureResult c => some c

def COMMAND_TYPE_DOES_NOT_EXIST : Int := 1
def REQUEST_IMPROPERLY_FORMATTED : Int := 2
def USER_DOES_NOT_EXIST : Int := 101
def AUTH_BYTES_NO_MATCH : Int := 102
def TABLE_DOES_NOT_EXIST : Int := 201
def TABLE_ALREADY_EXISTS : Int := 202
def ROW_DOES_NOT_EXIST : Int := 301
def ROW_SAME_UNIQUES_ALREADY_EXISTS : Int := 302
def ROW_LACKS_SOME_INDEXED_VALUES : Int := 303
def ROW_HAS_EXTRA_INDEXED_VALUES : Int := 304
def INVALID_INDEX_TYPE : Int := 305

/-- get_sole_key of dbfuncs.py, generic in the dict value type.  The
accumulator starts as Python None; note that a previously seen falsy key
(the empty string) is overwritten rather than reported, exactly as the
Python loop does. -/
def get_sole_key {α : Type} (d : List (String × α)) : Option String :=
  go none d
where
  go : Option String → List (String × α) → Option String
  | acc, [] => acc
  | acc, (key, _) :: rest =>
    match acc with
    | some s => if s = "" then go (some key) rest else none
    | none => go (some key) rest

/-- An entry value inside a wire filter object: either a JSON array of
sub-filter objects (the value under a combinator key) or a JSON object
mapping an operator to an operand (the value under a column key).
Other JSON values in these positions make the Python code raise, and are
not represented. -/
inductive WEntry where
  | earr (subs : List (List (String × WEntry)))
  | eops (ops : List (String × JVal))

/-- A wire filter: a JSON object, as an association list. -/
abbrev WFilter := List (String × WEntry)

/-- The compiled backing-store filter produced by
process_received_query_filter.  mNot models the emitted top-level $not,
mEqF a direct field equality, mCmp the range operators and mAll the
token containment operator. -/
inductive MongoFilter where
  | mAnd (subs : List MongoFilter)
  | mOr (subs : List MongoFilter)
  | mNor (subs : List MongoFilter)
  | mNot (f : MongoFilter)
  | mEqF (field : String) (v : DBValue)
  | mLt (field : String) (n : Int)
  | mGt (field : String) (n : Int)
  | mLte (field : String) (n : Int)
  | mGte (field : String) (n : Int)
  | mAll (field : String) (toks : List String)

/-- Modelled from the spec: resolution of a dotted backing-store field
path against a stored document.  The compiled filters and sort
specifications only ever name paths of the form index.column, which
resolve into the index map of the row. -/
def rowField (r : StoredRow) (f : String) : Option DBValue :=
  match f.toList with
  | 'i' :: 'n' :: 'd' :: 'e' :: 'x' :: '.' :: rest => (r.index).lookup (String.mk rest)
  | _ => none

/-- Modelled from the spec: backing-store equality match of a stored
value against a query value.  A stored token list also matches a single
queried token it contains (this is what makes the single-token text
query a containment query, spec section 4.7). -/
def matchValue (stored q : DBValue) : Bool :=
  stored == q ||
    (match stored, q with
     | .vList l, .vStr s => l.contains s
     | _, _ => false)

/-- Modelled from the spec: equality match at a possibly missing field
(a missing field matches no non-null query value). -/
def mongoEqMatch (stored : Option DBValue) (q : DBValue) : Bool :=
  match stored with
  | some st => matchValue st q
  | none => false

mutual

/-- Modelled from the spec: the backing-store filter semantics for the
compiled forms of section 4.7: conjunction, disjunction, negated
disjunction, negation, equality, integer ranges and token containment
(all tokens present). -/
def evalMongo (r : StoredRow) : MongoFilter → Bool
  | .mAnd subs => evalMongoAll r subs
  | .mOr subs => evalMongoAny r subs
  | .mNor subs => !(evalMongoAny r subs)
  | .mNot f => !(evalMongo r f)
  | .mEqF field v => mongoEqMatch (rowField r field) v
  | .mLt field n =>
    match rowField r field with
    | some (.vInt m) => m < n
    | _ => false
  | .mGt field n =>
    match rowField r field with
    | some (.vInt m) => m > n
    | _ => false
  | .mLte field n =>
    match rowField r field with
    | some (.vInt m) => m ≤ n
    | _ => false
  | .mGte field n =>
    match rowField r field with
    | some (.vInt m) => m ≥ n
    | _ => false
  | .mAll field toks => toks.all (fun t => mongoEqMatch (rowField r field) (.vStr t))
termination_by structural f => f

/-- Conjunction over a list of compiled filters. -/
def evalMongoAll (r : StoredRow) : List MongoFilter → Bool
  | [] => true
  | f :: fs => evalMongo r f && evalMongoAll r fs
termination_by structural l => l

/-- Disjunction over a list of compiled filters. -/
def evalMongoAny (r : StoredRow) : List MongoFilter → Bool
  | [] => false
  | f :: fs => evalMongo r f || evalMongoAny r fs
termination_by structural l => l

end

/-- The leaf compilation of process_received_query_filter (dbfuncs.py
lines 279 to 314): the sole key is a column name, its value an operator
object.  The index-type compatibility test deliberately happens before
the operator is validated, exactly as in the source.  none models an
uncaught exception (a non-integer operand under int()). -/
def processQueryLeaf (indices : List (String × String)) (column : String)
    (ops : List (String × JVal)) : Option (DBResult MongoFilter) :=
  if strHead0 column == some '$' then some (.FailureResult REQUEST_IMPROPERLY_FORMATTED)
  else if (indices.lookup column).isNone then
    some (.FailureResult ROW_HAS_EXTRA_INDEXED_VALUES)
  else
    let operation := get_sole_key ops
    let index_column := "index." ++ column
    let index_type := (indices.lookup column).getD ""
    if ((operation == some "text") != (index_type == "text" || index_type == "unique_text")) then
      some (.FailureResult INVALID_INDEX_TYPE)
    else if operation = none ∨ operation = some "" then
      some (.FailureResult REQUEST_IMPROPERLY_FORMATTED)
    else
      match operation with
      | none => some (.FailureResult REQUEST_IMPROPERLY_FORMATTED)
      | some op =>
        let operand := (ops.lookup op).getD .jnull
        if op = "eq" then
          match pyInt operand with
          | none => none
          | some n => some (.SuccessResult (.mEqF index_column (.vInt n)))
        else if op = "neq" then
          match pyInt operand with
          | none => none
          | some n => some (.SuccessResult (.mNot (.mEqF index_column (.vInt n))))
        else if op = "lt" then
          match pyInt operand with
          | none => none
          | some n => some (.SuccessResult (.mLt index_column n))
        else if op = "gt" then
          match pyInt operand with
          | none => none
          | some n => some (.SuccessResult (.mGt index_column n))
        else if op = "lte" then
          match pyInt operand with
          | none => none
          | some n => some (.SuccessResult (.mLte index_column n))
        else if op = "gte" then
          match pyInt operand with
          | none => none
          | some n => some (.SuccessResult (.mGte index_column n))
        else if op = "text" then
          match operand with
          | .jarr ws => some (.SuccessResult (.mAll index_column (ws.map pyStr)))
          | w => some (.SuccessResult (.mEqF index_column (.vStr (pyStr w))))
        else some (.FailureResult REQUEST_IMPROPERLY_FORMATTED)

mutual

/-- process_received_query_filter of dbfuncs.py (lines 234 to 314).
The sole-key dispatch of get_sole_key over a Python dict (whose keys are
distinct) is inlined as a pattern match: no entry or a falsy sole key is
error 2, a single entry is processed, and an object with two or more
real keys is error 2.  A combinator value that is not a JSON array, and
a column value that is not a JSON object, make the Python code raise
(none). -/
def process_received_query_filter (indices : List (String × String)) :
    WFilter → Option (DBResult MongoFilter)
  | [] => some (.FailureResult REQUEST_IMPROPERLY_FORMATTED)
  | [(k, v)] =>
    if k = "" then some (.FailureResult REQUEST_IMPROPERLY_FORMATTED)
    else processQueryKV indices k v
  | [("", _), (k, v)] =>
    if k = "" then some (.FailureResult REQUEST_IMPROPERLY_FORMATTED)
    else processQueryKV indices k v
  | _ => some (.FailureResult REQUEST_IMPROPERLY_FORMATTED)
termination_by structural q => q

/-- Dispatch on the sole key of a filter object: the four combinator
keys recurse on the sub-filters, any other key is a column leaf. -/
def processQueryKV (indices : List (String × String)) (k : String) :
    WEntry → Option (DBResult MongoFilter)
  | .earr subs =>
    if k = "and" then
      match processQuerySubs indices subs with
      | none => none
      | some (.FailureResult c) => some (.FailureResult c)
      | some (.SuccessResult fs) => some (.SuccessResult (.mAnd fs))
    else if k = "or" then
      match processQuerySubs indices subs with
      | none => none
      | some (.FailureResult c) => some (.FailureResult c)
      | some (.SuccessResult fs) => some (.SuccessResult (.mOr fs))
    else if k = "not_and" then
      match processQuerySubs indices subs with
      | none => none
      | some (.FailureResult c) => some (.FailureResult c)
      | some (.SuccessResult fs) => some (.SuccessResult (.mNor [.mAnd fs]))
    else if k = "not_or" then
      match processQuerySubs indices subs with
      | none => none
      | some (.FailureResult c) => some (.FailureResult c)
      | some (.SuccessResult fs) => some (.SuccessResult (.mNor fs))
    else none
  | .eops ops =>
    -- a combinator key whose value is a dict: Python iterates the keys,
    -- so an empty dict yields an empty subquery list while a non-empty
    -- dict recurses on a string and raises inside get_sole_key
    if k = "and" then
      if ops.isEmpty then some (.SuccessResult (.mAnd [])) else none
    else if k = "or" then
      if ops.isEmpty then some (.SuccessResult (.mOr [])) else none
    else if k = "not_and" then
      if ops.isEmpty then some (.SuccessResult (.mNor [.mAnd []])) else none
    else if k = "not_or" then
      if ops.isEmpty then some (.SuccessResult (.mNor [])) else none
    else processQueryLeaf indices k ops
termination_by structural v => v

/-- The subquery loop of the combinator branches: the first failure is
returned, successes are collected in order.  The failure codes are the
nonzero PhasmaDBErrorCode constants, so the Python truthiness test on
the code is modelled as a failure match. -/
def processQuerySubs (indices : List (String × String)) :
    List WFilter → Option (DBResult (List MongoFilter))
  | [] => some (.SuccessResult [])
  | q :: qs =>
    match process_received_query_filter indices q with
    | none => none
    | some (.FailureResult c) => some (.FailureResult c)
    | some (.SuccessResult f) =>
      match processQuerySubs indices qs with
      | none => none
      | some (.FailureResult c) => some (.FailureResult c)
      | some (.SuccessResult fs) => some (.SuccessResult (f :: fs))
termination_by structural l => l

end

/-- process_received_query_order of dbfuncs.py (lines 317 to 336).
pymongo.ASCENDING is 1 and pymongo.DESCENDING is -1.  An empty column
name would raise IndexError at the reserved-name test (none). -/
def process_received_query_order (indices : List (String × String)) :
    List (String × String) → Option (DBResult (List (String × Int)))
  | [] => some (.SuccessResult [])
  | (column, col_order) :: rest =>
    match strHead0 column with
    | none => none
    | some c0 =>
      if c0 = '$' then some (.FailureResult REQUEST_IMPROPERLY_FORMATTED)
      else
      match indices.lookup column with
      | none => some (.FailureResult ROW_HAS_EXTRA_INDEXED_VALUES)
      | some index_type =>
        if index_type = "text" ∨ index_type = "unique_text" then
          some (.FailureResult INVALID_INDEX_TYPE)
        else
          match (if col_order = "asc" then some (1 : Int)
                 else if col_order = "desc" then some (-1 : Int) else none) with
          | none => some (.FailureResult REQUEST_IMPROPERLY_FORMATTED)
          | some sort_order =>
            match process_received_query_order indices rest with
            | none => none
            | some (.FailureResult c) => some (.FailureResult c)
            | some (.SuccessResult sort) =>
              some (.SuccessResult (("index." ++ column, sort_order) :: sort))

/-- Modelled from the spec: the rank of a backing-store value in the
cross-type sort order (missing values sort below all present values;
the properties below only ever sort integer columns). -/
def dbValueRank : DBValue → Nat
  | .vInt _ => 0
  | .vStr _ => 1
  | .vList _ => 2

/-- Lexicographic comparison of token lists, completing the sort order
on stored values. -/
def cmpListStr : List String → List String → Ordering
  | [], [] => .eq
  | [], _ :: _ => .lt
  | _ :: _, [] => .gt
  | a :: as, b :: bs =>
    match compare a b with
    | .eq => cmpListStr as bs
    | o => o

/-- Modelled from the spec: total comparison of stored values, by rank
and then within the rank. -/
def cmpDBValue : DBValue → DBValue → Ordering
  | .vInt a, .vInt b => compare a b
  | .vStr a, .vStr b => compare a b
  | .vList a, .vList b => cmpListStr a b
  | a, b => compare (dbValueRank a) (dbValueRank b)

/-- Comparison of possibly missing field values: missing sorts first. -/
def cmpOptValue : Option DBValue → Option DBValue → Ordering
  | none, none => .eq
  | none, some _ => .lt
  | some _, none => .gt
  | some a, some b => cmpDBValue a b

/-- Modelled from the spec: the backing-store sort predicate induced by
a compiled sort specification (field path and direction, -1 reversing
the comparison), lexicographically over the specification. -/
def sortKeyLe (spec : List (String × Int)) (a b : StoredRow) : Bool :=
  match spec with
  | [] => true
  | (f, dir) :: rest =>
    match (if dir = -1 then cmpOptValue (rowField b f) (rowField a f)
           else cmpOptValue (rowField a f) (rowField b f)) with
    | .lt => true
    | .gt => false
    | .eq => sortKeyLe rest a b

/-- Modelled from the spec: the backing store returns the filtered rows
in a stable order consistent with the sort specification. -/
def sortRows (spec : List (String × Int)) (rows : List StoredRow) : List StoredRow :=
  List.insertionSort (fun a b => sortKeyLe spec a b = true) rows

/-- A catalog entry together with the backing collection of its table:
the declared indices (column to index type, as strings) and the stored
rows in insertion order. -/
structure DBTable where
  indices : List (String × String)
  rows : List StoredRow
deriving DecidableEq

/-- The database: the tables collection keyed by (name, owner), each
entry carrying its backing collection. -/
abbrev DB := List ((String × String) × DBTable)

/-- A queried row as it appears in a response: the indexed map and the
extra blob. -/
structure QRow where
  indexed : List (String × DBValue)
  extra : String
deriving DecidableEq

/-- Python dict insertion: an existing key is updated in place, a new
key is appended. -/
def dictInsert {α : Type} (d : List (String × α)) (k : String) (v : α) :
    List (String × α) :=
  if (d.lookup k).isSome then
    d.map (fun p => if p.1 = k then (k, v) else p)
  else d ++ [(k, v)]

/-- The result-accumulation loop of query_data (dbfuncs.py lines 370 to
378): each cursor row is added to the result dict, and with a limit the
loop breaks once the dict has reached the limit, after the addition. -/
def queryLoop (row_limit : Option Int) :
    List StoredRow → List (String × QRow) → List (String × QRow)
  | [], rows => rows
  | r :: rest, rows =>
    let rows' := dictInsert rows r.row_id ⟨r.index, r.extra⟩
    match row_limit with
    | none => queryLoop none rest rows'
    | some n => if (rows'.length : Int) ≥ n then rows' else queryLoop (some n) rest rows'

/-- The query object of a query_data command, with each field optional
because the Python code raises KeyError on an absent field. -/
structure QueryObj where
  filter : Option WFilter := none
  sort : Option (List (String × String)) := none
  limit : Option JVal := none

/-- The limit extraction of query_data (dbfuncs.py lines 366 to 368):
no limit key or a null limit means no limit, otherwise int() is applied
(so a non-integer limit raises, modelled by the outer none). -/
def pyLimit : Option JVal → Option (Option Int)
  | none => some none
  | some .jnull => some none
  | some v =>
    match pyInt v with
    | none => none
    | some n => some (some n)

/-- query_data of dbfuncs.py (lines 339 to 380): catalog lookup, filter
compilation, sort compilation, then filtered iteration of the backing
collection in sorted order with the limit loop. -/
def query_data (db : DB) (owner table_name : String) (query : QueryObj) :
    Option (DBResult (List (String × QRow))) :=
  match db.lookup (table_name, owner) with
  | none => some (.FailureResult TABLE_DOES_NOT_EXIST)
  | some table =>
    match query.filter with
    | none => none
    | some fq =>
      match process_received_query_filter table.indices fq with
      | none => none
      | some (.FailureResult c) => some (.FailureResult c)
      | some (.SuccessResult find_query) =>
        match query.sort with
        | none => none
        | some sq =>
          match process_received_query_order table.indices sq with
          | none => none
          | some (.FailureResult c) => some (.FailureResult c)
          | some (.SuccessResult sort_query) =>
            match pyLimit query.limit with
            | none => none
            | some row_limit =>
              let cursor := table.rows.filter (fun r => evalMongo r find_query)
              let cursor := if sort_query.length > 0 then sortRows sort_query cursor else cursor
              some (.SuccessResult (queryLoop row_limit cursor []))

/-- delete_data of dbfuncs.py (lines 400 to 417): catalog lookup, filter
compilation, then delete_many of the matching rows, answering the
deletion count.  The updated database is returned alongside. -/
def delete_data (db : DB) (owner table_name : String) (query : WFilter) :
    Option (DBResult Int × DB) :=
  match db.lookup (table_name, owner) with
  | none => some (.FailureResult TABLE_DOES_NOT_EXIST, db)
  | some table =>
    match process_received_query_filter table.indices query with
    | none => none
    | some (.FailureResult c) => some (.FailureResult c, db)
    | some (.SuccessResult find_query) =>
      let kept := table.rows.filter (fun r => !(evalMongo r find_query))
      let deleted : Int := (table.rows.length : Int) - (kept.length : Int)
      some (.SuccessResult deleted,
        db.map (fun e => if e.1 = (table_name, owner) then (e.1, ⟨table.indices, kept⟩) else e))

/-- Removal of the first list element satisfying a predicate (delete_one
of the backing store removes at most one document). -/
def removeFirst {α : Type} (p : α → Bool) : List α → List α
  | [] => []
  | x :: xs => if p x then xs else x :: removeFirst p xs

/-- delete_by_id of dbfuncs.py (lines 383 to 397). -/
def delete_by_id (db : DB) (owner table_name : String) (row_id : JVal) :
    Option (DBResult Unit × DB) :=
  match db.lookup (table_name, owner) with
  | none => some (.FailureResult TABLE_DOES_NOT_EXIST, db)
  | some table =>
    if table.rows.any (fun r => r.row_id == pyStr row_id) then
      some (.SuccessResult (),
        db.map (fun e => if e.1 = (table_name, owner) then
          (e.1, ⟨table.indices, removeFirst (fun r => r.row_id == pyStr row_id) table.rows⟩) else e))
    else some (.FailureResult ROW_DOES_NOT_EXIST, db)

/-- query_by_id of dbfuncs.py (lines 204 to 220). -/
def query_by_id (db : DB) (owner table_name : String) (row_id : JVal) :
    Option (DBResult QRow) :=
  match db.lookup (table_name, owner) with
  | none => some (.FailureResult TABLE_DOES_NOT_EXIST)
  | some table =>
    match table.rows.find? (fun r => r.row_id == pyStr row_id) with
    | none => some (.FailureResult ROW_DOES_NOT_EXIST)
    | some row => some (.SuccessResult ⟨row.index, row.extra⟩)

/-- drop_table of dbfuncs.py (lines 420 to 433): the catalog entry and
the backing collection are removed together. -/
def drop_table (db : DB) (owner table_name : String) :
    Option (DBResult Unit × DB) :=
  match db.lookup (table_name, owner) with
  | none => some (.FailureResult TABLE_DOES_NOT_EXIST, db)
  | some _ =>
    some (.SuccessResult (), db.filter (fun e => e.1 ≠ (table_name, owner)))

/-- A datum of an insert_data command: the wire indexed map and the
opaque extra value (dbfuncs.py reads both keys unconditionally). -/
structure Datum where
  indexed : List (String × JVal)
  extra : JVal

/-- The seeding step of insert_datum (dbfuncs.py lines 142 to 146): the
indexed values of an existing row with the same row_id are copied into
the request for every column the request does not carry. -/
def seedIndexed (dindexed : List (String × JVal))
    (erIndex : List (String × DBValue)) : List (String × JVal) :=
  erIndex.foldl
    (fun acc p => if (acc.lookup p.1).isSome then acc else acc ++ [(p.1, dbValueToJVal p.2)])
    dindexed

/-- The value validation of insert_datum (dbfuncs.py lines 155 to 162):
sort and unique columns coerce with int(), text and unique_text columns
accept a list (elementwise str()) or anything else via str(). -/
def coerceValue (index_type : String) (v : JVal) : Option DBValue :=
  if index_type = "sort" ∨ index_type = "unique" then (pyInt v).map .vInt
  else
    match v with
    | .jarr l => some (.vList (l.map pyStr))
    | w => some (.vStr (pyStr w))

/-- Modelled from the spec: find_one of the backing store under a field
equality filter returns the first matching document in collection
order, or nothing. -/
def mongoFindOne (rows : List StoredRow) (field : String) (v : DBValue) :
    Option StoredRow :=
  rows.find? (fun r => mongoEqMatch (rowField r field) v)

/-- The per-column loop of insert_datum (dbfuncs.py lines 150 to 167):
for each declared column, the missing-value check (303, only when no
row with this row_id exists), the type coercion (an invalid value
raises), and for unique and unique_text columns the collection of the
uniqueness pre-check lookups. -/
def insertLoop (rows : List StoredRow) (existing : Option StoredRow)
    (dindexed : List (String × JVal)) :
    List (String × String) →
    Option (DBResult (List (String × DBValue) × List (Option StoredRow)))
  | [] => some (.SuccessResult ([], []))
  | (index_name, index_type) :: rest =>
    if existing.isNone ∧ (dindexed.lookup index_name).isNone then
      some (.FailureResult ROW_LACKS_SOME_INDEXED_VALUES)
    else
      match dindexed.lookup index_name with
      | none => none
      | some v =>
        match coerceValue index_type v with
        | none => none
        | some dv =>
          match insertLoop rows existing dindexed rest with
          | none => none
          | some (.FailureResult c) => some (.FailureResult c)
          | some (.SuccessResult (indexed_data, finds)) =>
            if index_type = "unique" ∨ index_type = "unique_text" then
              some (.SuccessResult ((index_name, dv) :: indexed_data,
                mongoFindOne rows ("index." ++ index_name) dv :: finds))
            else
              some (.SuccessResult ((index_name, dv) :: indexed_data, finds))

/-- Replacement of the first list element satisfying a predicate
(replace_one of the backing store keeps the document position). -/
def replaceFirst {α : Type} (p : α → Bool) (x : α) : List α → List α
  | [] => []
  | y :: ys => if p y then x :: ys else y :: replaceFirst p x ys

/-- insert_datum of dbfuncs.py (lines 137 to 186) on the rows of one
table: seeding from an existing row, the per-column loop, the
undeclared-column check (304), the uniqueness pre-check (302), then
replace or insert.  The result is paired with the updated collection. -/
def insert_datum (table_indices : List (String × String))
    (rows : List StoredRow) (datum_id : String) (datum : Datum) :
    Option (DBResult Unit × List StoredRow) :=
  let existing_row := rows.find? (fun r => r.row_id == datum_id)
  let dindexed :=
    match existing_row with
    | some er => seedIndexed datum.indexed er.index
    | none => datum.indexed
  match insertLoop rows existing_row dindexed table_indices with
  | none => none
  | some (.FailureResult c) => some (.FailureResult c, rows)
  | some (.SuccessResult (indexed_data, finds)) =>
    if dindexed.any (fun p => (indexed_data.lookup p.1).isNone) then
      some (.FailureResult ROW_HAS_EXTRA_INDEXED_VALUES, rows)
    else if finds.any (fun fo =>
        match fo with
        | some r => r.row_id != datum_id
        | none => false) then
      some (.FailureResult ROW_SAME_UNIQUES_ALREADY_EXISTS, rows)
    else
      match existing_row with
      | some _ =>
        some (.SuccessResult (),
          replaceFirst (fun r => r.row_id == datum_id)
            ⟨datum_id, indexed_data, pyStr datum.extra⟩ rows)
      | none =>
        some (.SuccessResult (), rows ++ [⟨datum_id, indexed_data, pyStr datum.extra⟩])

/-- The batch loop of insert_data.  The source gathers the per-datum
tasks concurrently against the backing store; the model runs them in
order (the properties below use single-datum batches, for which the two
agree). -/
def insertFold (ti : List (String × String)) :
    List StoredRow → List (String × Datum) →
    Option (List (String × DBResult Unit) × List StoredRow)
  | rows, [] => some ([], rows)
  | rows, (datum_id, d) :: rest =>
    match insert_datum ti rows datum_id d with
    | none => none
    | some (res, rows') =>
      match insertFold ti rows' rest with
      | none => none
      | some (results, finalRows) => some ((datum_id, res) :: results, finalRows)

/-- insert_data of dbfuncs.py (lines 189 to 201): a missing table fails
every datum with 201, otherwise each datum is processed. -/
def insert_data (db : DB) (owner table_name : String)
    (data : List (String × Datum)) :
    Option (List (String × DBResult Unit) × DB) :=
  match db.lookup (table_name, owner) with
  | none => some (data.map (fun p => (p.1, .FailureResult TABLE_DOES_NOT_EXIST)), db)
  | some table =>
    match insertFold table.indices table.rows data with
    | none => none
    | some (results, finalRows) =>
      some (results,
        db.map (fun e => if e.1 = (table_name, owner) then (e.1, ⟨table.indices, finalRows⟩) else e))

/-- validate_index_name of dbfuncs.py: a full match of [0-9a-z_]+. -/
def validate_index_name (index_name : String) : Option String :=
  if index_name ≠ "" ∧ index_name.toList.all
      (fun c => (('0' ≤ c ∧ c ≤ '9') ∨ ('a' ≤ c ∧ c ≤ 'z') ∨ c = '_')) then
    some index_name
  else none

/-- validate_index_type of dbfuncs.py: membership in the four declared
index types (a non-string is never a member). -/
def validate_index_type (index_type : JVal) : Option String :=
  match index_type with
  | .jstr s =>
    if s = "sort" ∨ s = "unique" ∨ s = "text" ∨ s = "unique_text" then some s else none
  | _ => none

/-- The index validation loop of create_table (dbfuncs.py lines 104 to
110); none models the immediate FailureResult(2). -/
def validateIndices : List (String × JVal) → Option (List (String × String))
  | [] => some []
  | (k, v) :: rest =>
    match validate_index_name k, validate_index_type v with
    | some k1, some v1 =>
      match validateIndices rest with
      | some r => some ((k1, v1) :: r)
      | none => none
    | _, _ => none

/-- A decoded command object.  Fields are optional because the Python
handlers raise KeyError on an absent field; each field is typed as the
handlers consume it (a value of an entirely wrong shape also raises,
which the model folds into the same none). -/
structure Command where
  cmd : Option JVal := none
  name : Option JVal := none
  indices : Option (List (String × JVal)) := none
  table : Option JVal := none
  data : Option (List (String × Datum)) := none
  row_id : Option JVal := none
  query : Option QueryObj := none
  filter : Option WFilter := none

/-- create_table of dbfuncs.py (lines 96 to 134).  The backing-store
index creations have no observable effect in the model. -/
def create_table (db : DB) (owner : String) (command : Command) :
    Option (DBResult Unit × DB) :=
  match command.name with
  | none => none
  | some namev =>
    let table_name := pyStr namev
    match db.lookup (table_name, owner) with
    | some _ => some (.FailureResult TABLE_ALREADY_EXISTS, db)
    | none =>
      match command.indices with
      | none => none
      | some ind =>
        match validateIndices ind with
        | none => some (.FailureResult REQUEST_IMPROPERLY_FORMATTED, db)
        | some indices =>
          some (.SuccessResult (), db ++ [((table_name, owner), ⟨indices, []⟩)])

/-- empty_result_to_json of dbfuncs.py (lines 75 to 80).  The failure
codes in use are the nonzero PhasmaDBErrorCode constants, so the Python
truthiness test on the code is modelled by the explicit zero test. -/
def empty_result_to_json (result : DBResult Unit) : JVal :=
  match result with
  | .SuccessResult _ => .jobj [("success", .jbool true)]
  | .FailureResult error =>
    if error ≠ 0 then .jobj [("success", .jbool false), ("error", .jint error)]
    else .jobj [("success", .jbool true)]

/-- result_to_json of dbfuncs.py (lines 83 to 93): the value starts as
the empty object, gains success and the payload when the payload is
truthy, or success false and the error when the result is a truthy
failure code, and is returned as is otherwise. -/
def result_to_json (result : DBResult JVal) (output_key : String) : JVal :=
  match result with
  | .SuccessResult output =>
    if pyTruthy output then .jobj [("success", .jbool true), (output_key, output)]
    else .jobj []
  | .FailureResult error =>
    if error ≠ 0 then .jobj [("success", .jbool false), ("error", .jint error)]
    else .jobj []

/-- Functorial map on a handler result, used where process_command
serializes a structured payload into the response JSON. -/
def mapResult {α β : Type} (f : α → β) : DBResult α → DBResult β
  | .SuccessResult r => .SuccessResult (f r)
  | .FailureResult c => .FailureResult c

/-- A queried row serialized for a response. -/
def qrowToJVal (r : QRow) : JVal :=
  .jobj [("indexed", .jobj (r.indexed.map (fun p => (p.1, dbValueToJVal p.2)))),
         ("extra", .jstr r.extra)]

/-- The result dict of query_data serialized for a response. -/
def rowsToJVal (rows : List (String × QRow)) : JVal :=
  .jobj (rows.map (fun p => (p.1, qrowToJVal p.2)))

/-- process_command of dbfuncs.py (lines 436 to 459): dispatch on the
cmd tag (a non-string tag matches no branch and yields error 1), the
handler field reads (raising KeyError on an absent field, modelled by
none), and the response envelopes.  There is no exception handler
anywhere on this path, nor in the session loop of server.py, so a none
here reaches the transport layer. -/
def process_command (db : DB) (user : String) (command : Command) :
    Option (JVal × DB) :=
  match command.cmd with
  | none => none
  | some cmdv =>
    -- Python compares the raw value against string literals, so a
    -- non-string tag matches no branch and falls to error 1
    let cmds : Option String := match cmdv with | .jstr s => some s | _ => none
    if cmds == some "create_table" then
      match create_table db user command with
      | none => none
      | some (result, db1) => some (empty_result_to_json result, db1)
    else if cmds == some "insert_data" then
      match command.table, command.data with
      | some tv, some data =>
        match insert_data db user (pyStr tv) data with
        | none => none
        | some (results, db1) =>
          some (.jobj [("results",
            .jobj (results.map (fun p => (p.1, empty_result_to_json p.2))))], db1)
      | _, _ => none
    else if cmds == some "query_by_id" then
      match command.table, command.row_id with
      | some tv, some rv =>
        match query_by_id db user (pyStr tv) rv with
        | none => none
        | some result => some (result_to_json (mapResult qrowToJVal result) "row", db)
      | _, _ => none
    else if cmds == some "query_data" then
      match command.table, command.query with
      | some tv, some q =>
        match query_data db user (pyStr tv) q with
        | none => none
        | some result => some (result_to_json (mapResult rowsToJVal result) "data", db)
      | _, _ => none
    else if cmds == some "delete_by_id" then
      match command.table, command.row_id with
      | some tv, some rv =>
        match delete_by_id db user (pyStr tv) rv with
        | none => none
        | some (result, db1) => some (empty_result_to_json result, db1)
      | _, _ => none
    else if cmds == some "delete_data" then
      match command.table, command.filter with
      | some tv, some f =>
        match delete_data db user (pyStr tv) f with
        | none => none
        | some (result, db1) => some (result_to_json (mapResult .jint result) "count", db1)
      | _, _ => none
    else if cmds == some "drop_table" then
      match command.table with
      | some tv =>
        match drop_table db user (pyStr tv) with
        | none => none
        | some (result, db1) => some (empty_result_to_json result, db1)
      | none => none
    else
      some (.jobj [("success", .jbool false), ("error", .jint COMMAND_TYPE_DOES_NOT_EXIST)], db)

/-
  Client side: the payload envelope of phasmadb.py (process_sent_data,
  lines 153 to 163, and process_received_data, lines 170 to 184).
  Byte strings are lists of naturals.  The external primitives (the AES
  block permutation, base64, and the JSON plus UTF-8 codec pair) are
  parameters with their interface contracts as hypotheses.
-/

/-- ANSI X9.23 padding to a 16-byte block boundary: between 1 and 16
bytes are appended, zeros followed by the pad length. -/
def ansix923Pad (bs : List Nat) : List Nat :=
  let k := 16 - bs.length % 16
  bs ++ List.replicate (k - 1) 0 ++ [k]

/-- ANSI X9.23 unpadding: the final byte gives the pad length, which
must be between 1 and 16 and no longer than the data; none models the
padding error the cryptography library raises. -/
def ansix923Unpad (bs : List Nat) : Option (List Nat) :=
  match bs.getLast? with
  | none => none
  | some k =>
    if k = 0 ∨ k > 16 ∨ k > bs.length then none
    else some (bs.take (bs.length - k))

/-- Split a byte string into 16-byte blocks (the last block may be
short if the length is not a multiple of 16). -/
def chunk16 (bs : List Nat) : List (List Nat) :=
  if h : bs = [] then []
  else bs.take 16 :: chunk16 (bs.drop 16)
termination_by bs.length
decreasing_by
  have hpos : 0 < bs.length := List.length_pos.mpr h
  simp only [List.length_drop]
  omega

/-- Pointwise xor of two equal-length byte strings. -/
def xorBytes (a b : List Nat) : List Nat :=
  List.zipWith Nat.xor a b

/-- CBC encryption over a list of 16-byte blocks with block function
enc, chaining from the previous ciphertext block. -/
def cbcEncBlocks (enc : List Nat → List Nat) (prev : List Nat) :
    List (List Nat) → List (List Nat)
  | [] => []
  | b :: rest =>
    let c := enc (xorBytes b prev)
    c :: cbcEncBlocks enc c rest

/-- CBC decryption over a list of 16-byte blocks with block function
dec, chaining from the previous ciphertext block. -/
def cbcDecBlocks (dec : List Nat → List Nat) (prev : List Nat) :
    List (List Nat) → List (List Nat)
  | [] => []
  | c :: rest => xorBytes (dec c) prev :: cbcDecBlocks dec c rest

/-- The external primitives of the envelope: the AES block permutation
and its inverse, the base64 codec, and the composite of json.dumps with
UTF-8 encoding together with its decoding counterpart.  The type of
plaintexts and the type of transported envelope strings are abstract. -/
structure EnvelopePrims (α β : Type) where
  aesEnc : List Nat → List Nat
  aesDec : List Nat → List Nat
  b64encode : List Nat → β
  b64decode : β → List Nat
  dumpBytes : α → List Nat
  loadBytes : List Nat → α
  iv : List Nat

/-- The envelope encoding of process_sent_data (phasmadb.py lines 153
to 163): pad the UTF-8 JSON encoding with ANSI X9.23, encrypt CBC with
a fresh 16-byte initialization vector, emit base64 of the vector
followed by the ciphertext. -/
def process_sent_data_envelope {α β : Type} (P : EnvelopePrims α β) (extra_data : α) : β :=
  let data_to_encrypt := ansix923Pad (P.dumpBytes extra_data)
  let encrypted_data := P.iv ++ (cbcEncBlocks P.aesEnc P.iv (chunk16 data_to_encrypt)).flatten
  P.b64encode encrypted_data

/-- The envelope decoding of process_received_data (phasmadb.py lines
170 to 184): base64 decode, split off the 16-byte initialization
vector, decrypt CBC, remove the padding, parse the UTF-8 JSON. -/
def process_received_data_envelope {α β : Type} (P : EnvelopePrims α β) (extra : β) :
    Option α :=
  let data_to_decrypt := P.b64decode extra
  let iv := data_to_decrypt.take 16
  let body := data_to_decrypt.drop 16
  let decrypted_data := (cbcDecBlocks P.aesDec iv (chunk16 body)).flatten
  match ansix923Unpad decrypted_data with
  | none => none
  | some unpadded => some (P.loadBytes unpadded)

/-
  Spec-side definitions.  These follow the words of the specification
  (sections 4.2 and 4.7) rather than the code, and are compared with the
  code through the refinement theorems below.
-/

/-- Direct semantics of a leaf test against a row: the queried value is
present in the cell (a token list contains it, any other cell equals
it). -/
def cellMatches (r : StoredRow) (col : String) (q : DBValue) : Bool :=
  match (r.index).lookup col with
  | some st => matchValue st q
  | none => false

/-- The integer content of a cell, if the cell holds an integer. -/
def cellInt (r : StoredRow) (col : String) : Option Int :=
  match (r.index).lookup col with
  | some (.vInt m) => some m
  | _ => none

/-- Direct semantics of a wire leaf (spec section 4.2: eq, neq, lt,
lte, gt, gte with an integer operand, text with a string or
list-of-strings operand; section 4.7: equality for eq and single-token
text, ranges, negated equality for neq, all tokens present for
list-valued text). -/
def evalWireLeaf (r : StoredRow) (col op : String) (v : JVal) : Bool :=
  if op = "eq" then
    match v with
    | .jint n => cellMatches r col (.vInt n)
    | _ => false
  else if op = "neq" then
    match v with
    | .jint n => !(cellMatches r col (.vInt n))
    | _ => false
  else if op = "lt" then
    match v, cellInt r col with
    | .jint n, some m => m < n
    | _, _ => false
  else if op = "gt" then
    match v, cellInt r col with
    | .jint n, some m => m > n
    | _, _ => false
  else if op = "lte" then
    match v, cellInt r col with
    | .jint n, some m => m ≤ n
    | _, _ => false
  else if op = "gte" then
    match v, cellInt r col with
    | .jint n, some m => m ≥ n
    | _, _ => false
  else if op = "text" then
    match v with
    | .jstr s => cellMatches r col (.vStr s)
    | .jarr toks => toks.all (fun t =>
        match t with
        | .jstr s => cellMatches r col (.vStr s)
        | _ => false)
    | _ => false
  else false

mutual

/-- Direct spec semantics of a wire predicate against a row: the empty
object matches every row, a sole combinator key combines the children,
a sole column key applies the leaf test. -/
def evalWire (r : StoredRow) : WFilter → Bool
  | [] => true
  | [(k, v)] => evalWireKV r k v
  | _ => false
termination_by structural q => q

/-- Dispatch of the direct semantics on the sole key. -/
def evalWireKV (r : StoredRow) (k : String) : WEntry → Bool
  | .earr subs =>
    if k = "and" then (evalWireSubs r subs).all id
    else if k = "or" then (evalWireSubs r subs).any id
    else if k = "not_and" then !((evalWireSubs r subs).all id)
    else if k = "not_or" then !((evalWireSubs r subs).any id)
    else false
  | .eops ops =>
    match ops with
    | [(op, v)] => evalWireLeaf r k op v
    | _ => false
termination_by structural v => v

/-- The direct semantics of every sub-predicate. -/
def evalWireSubs (r : StoredRow) : List WFilter → List Bool
  | [] => []
  | q :: qs => evalWire r q :: evalWireSubs r qs
termination_by structural l => l

end

mutual

/-- Well-formedness of a wire predicate, following the serialization
the spec defines in section 4.2: single-key objects, combinator keys
over arrays of well-formed sub-predicates, leaves with a single
operator whose operand is an integer for the numeric operators and a
string or list of strings for text. -/
def wellFormedFilter : WFilter → Bool
  | [] => true
  | [(k, v)] => wellFormedKV k v
  | _ => false
termination_by structural q => q

/-- Well-formedness of the sole entry of a wire predicate object. -/
def wellFormedKV (k : String) : WEntry → Bool
  | .earr subs =>
    (k = "and" || k = "or" || k = "not_and" || k = "not_or") && wellFormedSubs subs
  | .eops ops =>
    match ops with
    | [(op, v)] =>
      if op = "text" then
        match v with
        | .jstr _ => true
        | .jarr toks => toks.all (fun t =>
            match t with
            | .jstr _ => true
            | _ => false)
        | _ => false
      else
        (op = "eq" || op = "neq" || op = "lt" || op = "gt" || op = "lte" || op = "gte") &&
          (match v with | .jint _ => true | _ => false)
    | _ => false
termination_by structural v => v

/-- Well-formedness of every sub-predicate. -/
def wellFormedSubs : List WFilter → Bool
  | [] => true
  | q :: qs => wellFormedFilter q && wellFormedSubs qs
termination_by structural l => l

end

/-- The requested sort specification rendered as the backing-store sort
specification the spec prescribes: asc is ascending, desc is
descending, on the index field of the column. -/
def specOrderSpec (sq : List (String × String)) : List (String × Int) :=
  sq.map (fun p => ("index." ++ p.1, if p.2 = "desc" then (-1 : Int) else 1))

/-- The limit consumption the code implements: no limit keeps all rows,
a limit of n keeps the first n rows but always at least one (the loop
of query_data breaks only after having added a row). -/
def takeEffective {α : Type} (limit : Option Int) (l : List α) : List α :=
  match limit with
  | none => l
  | some n => l.take (max n 1).toNat

/-- The limit consumption the claim states: a limit of n keeps at most
the first n rows, so a limit of 0 keeps none. -/
def takeRequested {α : Type} (limit : Option Int) (l : List α) : List α :=
  match limit with
  | none => l
  | some n => l.take n.toNat

/-- A stored row rendered as a result dict entry of query_data. -/
def renderRow (r : StoredRow) : String × QRow := (r.row_id, ⟨r.index, r.extra⟩)

/-- Literal translation of claim C1: for every authenticated owner,
existing table and well-formed query command, query_data answers
exactly the rows whose indexed values satisfy the wire predicate, after
the requested sort and limit (the limit taken as stated, at most n
rows). -/
def C1_claimed_property : Prop :=
  ∀ (db : DB) (owner table_name : String) (q : QueryObj) (tbl : DBTable)
    (fq : WFilter) (sq : List (String × String)) (lim : Option Int),
    db.lookup (table_name, owner) = some tbl →
    (tbl.rows.map StoredRow.row_id).Nodup →
    q.filter = some fq →
    wellFormedFilter fq = true →
    (∃ F, process_received_query_filter tbl.indices fq = some (.SuccessResult F)) →
    q.sort = some sq →
    (∃ S, process_received_query_order tbl.indices sq = some (.SuccessResult S)) →
    pyLimit q.limit = some lim →
    query_data db owner table_name q =
      some (.SuccessResult ((takeRequested lim (sortRows (specOrderSpec sq)
        (tbl.rows.filter (fun r => evalWire r fq)))).map renderRow))

/-- Literal translation of claim C4: a query with a non-null
non-negative limit n answers at most n rows. -/
def C4_claimed_property : Prop :=
  ∀ (db : DB) (owner table_name : String) (q : QueryObj) (n : Int)
    (out : List (String × QRow)),
    pyLimit q.limit = some (some n) →
    0 ≤ n →
    query_data db owner table_name q = some (.SuccessResult out) →
    (out.length : Int) ≤ n

/-- Literal translation of claim C7 for the leaf case: compiling a leaf
over a declared column fails with 305 exactly when a recognized
operator mismatches the index type, that is when the operator is text
on a sort or unique column, or one of the six numeric operators on a
text or unique_text column. -/
def C7_claimed_property : Prop :=
  ∀ (indices : List (String × String)) (column : String) (ty : String)
    (ops : List (String × JVal)),
    indices.lookup column = some ty →
    strHead0 column ≠ some '$' → column ≠ "" →
    (processQueryLeaf indices column ops = some (.FailureResult INVALID_INDEX_TYPE) ↔
      (∃ v, (get_sole_key ops = some "text" ∧ ops.lookup "text" = some v ∧
              (ty = "sort" ∨ ty = "unique")) ∨
            (∃ op, get_sole_key ops = some op ∧ ops.lookup op = some v ∧
              (op = "eq" ∨ op = "neq" ∨ op = "lt" ∨ op = "lte" ∨ op = "gt" ∨ op = "gte") ∧
              (ty = "text" ∨ ty = "unique_text"))))

/-- A trivial instantiation of the envelope primitives (identity block
cipher and base64, singleton byte serialization), used to witness the
roundtrip theorem. -/
def idPrims : EnvelopePrims Nat (List Nat) where
  aesEnc := id
  aesDec := id
  b64encode := id
  b64decode := id
  dumpBytes := fun n => [n]
  loadBytes := fun bs => bs.headD 0
  iv := List.replicate 16 0

/-- The seeded request of insert_datum: the indexed map of the request
completed, for every absent column, with the stored values of the row
with the same row_id, if one exists. -/
def seededOf (rows : List StoredRow) (datum_id : String) (datum : Datum) :
    List (String × JVal) :=
  match rows.find? (fun r => r.row_id == datum_id) with
  | some er => seedIndexed datum.indexed er.index
  | none => datum.indexed

/-- The coerced value a (seeded) request carries at a column of a given
index type. -/
def coercedValueAt (dind : List (String × JVal)) (c ty : String) : Option DBValue :=
  match dind.lookup c with
  | none => none
  | some v => coerceValue ty v

/-- The new index value insert_datum would store at a declared column:
seeded then coerced against the declared type. -/
def newIndexValue (ti : List (String × String)) (rows : List StoredRow)
    (datum_id : String) (datum : Datum) (c : String) : Option DBValue :=
  match ti.lookup c with
  | none => none
  | some ty => coercedValueAt (seededOf rows datum_id datum) c ty

/-- The uniqueness pre-check lookups gathered by a successful insert
loop, one per declared unique or unique_text column, in order. -/
def collectFinds (rows : List StoredRow) (dind : List (String × JVal)) :
    List (String × String) → List (Option StoredRow)
  | [] => []
  | (c, ty) :: rest =>
    if ty = "unique" ∨ ty = "unique_text" then
      (match coercedValueAt dind c ty with
       | some dv => mongoFindOne rows ("index." ++ c) dv
       | none => none) :: collectFinds rows dind rest
    else collectFinds rows dind rest

/-- The indexed data a successful insert loop builds: one entry per
declared column, in declaration order (the fallback value of the none
case is never reached when every column coerces). -/
def collectIndexed (dind : List (String × JVal)) :
    List (String × String) → List (String × DBValue)
  | [] => []
  | (c, ty) :: rest =>
    (match coercedValueAt dind c ty with
     | some dv => (c, dv)
     | none => (c, .vInt 0)) :: collectIndexed dind rest

/-- The cross-row uniqueness invariant of a table: at every declared
unique or unique_text column, the stored value of one row is never
matched (under backing-store equality) by the stored value of a row
with a different row_id. -/
def uniqueDistinct (ti : List (String × String)) (rows : List StoredRow) : Prop :=
  ∀ p ∈ ti, (p.2 = "unique" ∨ p.2 = "unique_text") →
    ∀ r ∈ rows, ∀ s ∈ rows, r.row_id ≠ s.row_id →
      (match r.index.lookup p.1 with
       | some dv => mongoEqMatch (s.index.lookup p.1) dv
       | none => false) = false

/-- Scalar values at unique columns: no stored row holds a token-list
value at a declared unique or unique_text column (backing-store equality
is then plain equality there). -/
def scalarUniques (ti : List (String × String)) (rows : List StoredRow) : Prop :=
  ∀ p ∈ ti, (p.2 = "unique" ∨ p.2 = "unique_text") →
    ∀ r ∈ rows, (match r.index.lookup p.1 with
      | some (.vList _) => false
      | _ => true) = true

/-
  Theorems.
-/

/-- Claim C2 (code bug): result_to_json tests the Python truthiness of
the success payload, so a successful delete_data whose deletion count
is 0, and a successful query_data whose result dict is empty, are both
rendered as the empty JSON object, which carries neither success nor
error.  The third conjunct runs the full pipeline: delete_data on a
filter matching no rows answers the empty object instead of the claimed
success true with count 0. -/
theorem C2_falsy_success_payload_renders_empty_object :
    result_to_json (.SuccessResult (.jint 0)) "count" = .jobj [] ∧
    result_to_json (.SuccessResult (.jobj [])) "data" = .jobj [] ∧
    process_command [(("t", "u"), ⟨[("c", "sort")], []⟩)] "u"
      { cmd := some (.jstr "delete_data"), table := some (.jstr "t"),
        filter := some [("c", .eops [("eq", .jint 1)])] } =
      some (.jobj [], [(("t", "u"), ⟨[("c", "sort")], []⟩)]) :=
  ⟨rfl, rfl, rfl⟩

/-- Claim C3 (code bug): the empty wire filter object, which is the
serialization of SelectAll, is rejected by the query compiler with
error 2 because get_sole_key answers Python None on an empty dict, so
query_data returns error 2 instead of every row and delete_data
returns error 2 and deletes nothing instead of deleting every row and
reporting the count. -/
theorem C3_empty_filter_rejected_not_select_all :
    get_sole_key ([] : WFilter) = none ∧
    process_received_query_filter [("c", "sort")] [] =
      some (.FailureResult REQUEST_IMPROPERLY_FORMATTED) ∧
    query_data [(("t", "u"), ⟨[("c", "sort")], [⟨"r1", [("c", .vInt 5)], "x"⟩]⟩)]
      "u" "t" ⟨some [], some [], none⟩ =
      some (.FailureResult REQUEST_IMPROPERLY_FORMATTED) ∧
    delete_data [(("t", "u"), ⟨[("c", "sort")], [⟨"r1", [("c", .vInt 5)], "x"⟩]⟩)]
      "u" "t" [] =
      some (.FailureResult REQUEST_IMPROPERLY_FORMATTED,
        [(("t", "u"), ⟨[("c", "sort")], [⟨"r1", [("c", .vInt 5)], "x"⟩]⟩)]) :=
  ⟨rfl, rfl, rfl, rfl⟩

/-- Claim C8 (code bug): neither process_command nor the session loop
of server.py catches handler exceptions, so a payload missing a
required field raises KeyError across the session boundary (modelled
by none) instead of being rendered as success false with error 2: here
a query_data command without a table field, and one whose query object
has no filter field. -/
theorem C8_handler_exception_escapes :
    process_command [] "u" { cmd := some (.jstr "query_data") } = none ∧
    process_command [(("t", "u"), ⟨[("c", "sort")], []⟩)] "u"
      { cmd := some (.jstr "query_data"), table := some (.jstr "t"),
        query := some {} } = none :=
  ⟨rfl, rfl⟩

/-- The per-column insert loop fails with 303 when no row with the
row_id exists, some declared column is absent from the request, and
every value that is present coerces (so the loop reaches the absent
column). -/
theorem insertLoop_missing_303 (rows : List StoredRow)
    (dind : List (String × JVal)) (ti : List (String × String))
    (hco : ∀ c ty v, (c, ty) ∈ ti → dind.lookup c = some v → coerceValue ty v ≠ none)
    (hmiss : ∃ c ty, (c, ty) ∈ ti ∧ dind.lookup c = none) :
    insertLoop rows none dind ti =
      some (.FailureResult ROW_LACKS_SOME_INDEXED_VALUES) := by
  induction ti with
  | nil => obtain ⟨c, ty, hmem, _⟩ := hmiss; exact absurd hmem (List.not_mem_nil _)
  | cons head rest ih =>
    obtain ⟨c0, ty0⟩ := head
    by_cases hl : dind.lookup c0 = none
    · simp [insertLoop, hl]
    · obtain ⟨v, hv⟩ := Option.ne_none_iff_exists'.mp hl
      obtain ⟨dv, hdv⟩ := Option.ne_none_iff_exists'.mp
        (hco c0 ty0 v (List.mem_cons_self _ _) hv)
      have hrest : insertLoop rows none dind rest =
          some (.FailureResult ROW_LACKS_SOME_INDEXED_VALUES) := by
        refine ih (fun c ty v hm hlv => hco c ty v (List.mem_cons_of_mem _ hm) hlv) ?_
        obtain ⟨c, ty, hmem, hnone⟩ := hmiss
        rcases List.mem_cons.mp hmem with heq | hmem2
        · exfalso
          obtain ⟨hc, _⟩ := Prod.mk.injEq .. ▸ heq
          rw [Prod.ext_iff] at heq
          simp only at heq
          rw [heq.1] at hnone
          exact hl hnone
        · exact ⟨c, ty, hmem2, hnone⟩
      simp [insertLoop, hl, hv, hdv, hrest]

/-- The per-column insert loop only ever fails with 303. -/
theorem insertLoop_failure_is_303 (rows : List StoredRow)
    (ex : Option StoredRow) (dind : List (String × JVal))
    (ti : List (String × String)) (c : Int)
    (h : insertLoop rows ex dind ti = some (.FailureResult c)) :
    c = ROW_LACKS_SOME_INDEXED_VALUES := by
  induction ti with
  | nil => simp [insertLoop] at h
  | cons head rest ih =>
    obtain ⟨c0, ty0⟩ := head
    by_cases h303 : ex.isNone ∧ (dind.lookup c0).isNone
    · simp [insertLoop, h303.1, h303.2] at h
      omega
    · rcases hl : dind.lookup c0 with _ | v
      · rcases hex : ex with _ | er
        · exact absurd ⟨by simp [hex], by simp [hl]⟩ h303
        · simp [insertLoop, hex, hl] at h
      · rcases hcv : coerceValue ty0 v with _ | dv
        · simp [insertLoop, hl, hcv] at h
        · rcases hrec : insertLoop rows ex dind rest with _ | r
          · simp [insertLoop, hl, hcv, hrec] at h
          · rcases r with x | cr
            · obtain ⟨xa, xb⟩ := x
              by_cases hu : ty0 = "unique" ∨ ty0 = "unique_text" <;>
                simp [insertLoop, hl, hcv, hrec, hu] at h
            · simp [insertLoop, hl, hcv, hrec] at h
              exact ih (by rw [hrec, h])

/-- When the per-column insert loop succeeds, every declared column had
a value in the (seeded) request. -/
theorem insertLoop_success_all_present (rows : List StoredRow)
    (ex : Option StoredRow) (dind : List (String × JVal))
    (ti : List (String × String))
    (x : List (String × DBValue) × List (Option StoredRow))
    (h : insertLoop rows ex dind ti = some (.SuccessResult x)) :
    ∀ c ty, (c, ty) ∈ ti → (dind.lookup c).isSome := by
  induction ti generalizing x with
  | nil => intro c ty hmem; exact absurd hmem (List.not_mem_nil _)
  | cons head rest ih =>
    obtain ⟨c0, ty0⟩ := head
    intro c ty hmem
    by_cases h303 : ex.isNone ∧ (dind.lookup c0).isNone
    · simp [insertLoop, h303.1, h303.2] at h
    · rcases hl : dind.lookup c0 with _ | v
      · rcases hex : ex with _ | er
        · exact absurd ⟨by simp [hex], by simp [hl]⟩ h303
        · simp [insertLoop, hex, hl] at h
      · rcases hcv : coerceValue ty0 v with _ | dv
        · simp [insertLoop, hl, hcv] at h
        · rcases hrec : insertLoop rows ex dind rest with _ | r
          · simp [insertLoop, hl, hcv, hrec] at h
          · rcases hr : r with y | cr
            · rcases List.mem_cons.mp hmem with heq | hmem3
              · rw [Prod.ext_iff] at heq
                simp only at heq
                rw [heq.1, hl]; rfl
              · exact ih y (by rw [hrec, hr]) c ty hmem3
            · rw [hr] at hrec
              simp [insertLoop, hl, hcv, hrec] at h

/-- Claim C10: in insert_datum the missing-value check over the
declared columns runs inside the per-column loop, before the
undeclared-column check that follows the loop.  For a fresh row_id, a
datum that omits a declared column (while its present values coerce)
is failed with 303 even when it also carries undeclared columns, and
304 can only be the per-datum result when every declared column has a
value. -/
theorem C10_missing_value_checked_before_extra_columns
    (ti : List (String × String)) (rows : List StoredRow)
    (datum_id : String) (datum : Datum)
    (hfresh : rows.find? (fun r => r.row_id == datum_id) = none) :
    ((∀ c ty v, (c, ty) ∈ ti → datum.indexed.lookup c = some v → coerceValue ty v ≠ none) →
     (∃ c ty, (c, ty) ∈ ti ∧ datum.indexed.lookup c = none) →
     (∃ k v, (k, v) ∈ datum.indexed ∧ ti.lookup k = none) →
     insert_datum ti rows datum_id datum =
       some (.FailureResult ROW_LACKS_SOME_INDEXED_VALUES, rows)) ∧
    (∀ res rows2, insert_datum ti rows datum_id datum = some (res, rows2) →
     res = .FailureResult ROW_HAS_EXTRA_INDEXED_VALUES →
     ∀ c ty, (c, ty) ∈ ti → (datum.indexed.lookup c).isSome) := by
  constructor
  · intro hco hmiss _
    have hloop := insertLoop_missing_303 rows datum.indexed ti hco hmiss
    simp [insert_datum, hfresh, hloop]
  · intro res rows2 h hres c ty hmem
    rcases hloop : insertLoop rows none datum.indexed ti with _ | r
    · simp [insert_datum, hfresh, hloop] at h
    · rcases hr : r with x | cr
      · exact insertLoop_success_all_present rows none datum.indexed ti x
          (by rw [hloop, hr]) c ty hmem
      · rw [hr] at hloop
        have : cr = ROW_LACKS_SOME_INDEXED_VALUES :=
          insertLoop_failure_is_303 rows none datum.indexed ti cr hloop
        subst this
        simp [insert_datum, hfresh, hloop] at h
        rw [hres] at h
        exact absurd h.1 (by simp [ROW_HAS_EXTRA_INDEXED_VALUES, ROW_LACKS_SOME_INDEXED_VALUES])

/-- Witness for C10: a table with two sort columns, a fresh datum that
omits column b and carries an undeclared column z, failed with 303. -/
theorem C10_witness :
    insert_datum [("a", "sort"), ("b", "sort")] [] "r1"
      ⟨[("a", .jint 1), ("z", .jint 9)], .jstr "e"⟩ =
      some (.FailureResult ROW_LACKS_SOME_INDEXED_VALUES, []) := by
  refine (C10_missing_value_checked_before_extra_columns
    [("a", "sort"), ("b", "sort")] [] "r1"
    ⟨[("a", .jint 1), ("z", .jint 9)], .jstr "e"⟩ rfl).1 ?_ ?_ ?_
  · intro c ty v hmem hv
    rcases List.mem_cons.mp hmem with heq | hmem2
    · rw [Prod.ext_iff] at heq
      simp only at heq
      rw [heq.1] at hv
      simp [List.lookup] at hv
      rw [heq.2, ← hv]
      decide
    · rcases List.mem_cons.mp hmem2 with heq | hmem3
      · rw [Prod.ext_iff] at heq
        simp only at heq
        rw [heq.1] at hv
        simp [List.lookup] at hv
      · exact absurd hmem3 (List.not_mem_nil _)
  · exact ⟨"b", "sort", by decide, rfl⟩
  · exact ⟨"z", .jint 9, List.mem_cons_of_mem _ (List.mem_cons_self _ _), by decide⟩

/-- Claim C7 (counterexample): compilation of a leaf whose operator
object is empty yields 305 on a text column, although no operator at
all, let alone a mismatched one from the claimed list, is applied: the
index-type test runs before the operator is validated. -/
theorem C7_counterexample : ¬ C7_claimed_property := by
  intro h
  have h305 : processQueryLeaf [("c", "text")] "c" ([] : List (String × JVal)) =
      some (.FailureResult INVALID_INDEX_TYPE) := rfl
  have := (h [("c", "text")] "c" "text" [] (by decide) (by decide) (by decide)).mp h305
  obtain ⟨v, hcase⟩ := this
  rcases hcase with ⟨hsole, _, _⟩ | ⟨op, hsole, _, _, _⟩ <;>
    simp [get_sole_key, get_sole_key.go] at hsole

/-- Compilation of a leaf over a declared, non-reserved column answers
305 exactly when the truthy-or-not sole operator key being text
disagrees with the index type being text or unique_text; no later
branch of the leaf compiler can produce 305. -/
theorem C7_leaf_305_iff (indices : List (String × String)) (column ty : String)
    (ops : List (String × JVal))
    (hlook : indices.lookup column = some ty)
    (hdollar : strHead0 column ≠ some '$') :
    (processQueryLeaf indices column ops = some (.FailureResult INVALID_INDEX_TYPE) ↔
      ((get_sole_key ops == some "text") ≠ ((ty == "text") || (ty == "unique_text")))) := by
  rw [processQueryLeaf]
  rw [if_neg (by simpa using hdollar)]
  rw [hlook]
  simp only [Option.isNone_some, Bool.false_eq_true, if_false, Option.getD_some]
  by_cases hx : (get_sole_key ops == some "text") != ((ty == "text") || (ty == "unique_text"))
  · rw [if_pos (by simpa using hx)]
    simp only [bne_iff_ne, ne_eq] at hx
    simpa using hx
  · rw [if_neg (by simpa using hx)]
    simp only [bne_iff_ne, ne_eq, not_not] at hx
    constructor
    · intro h
      exfalso
      repeat' split at h
      all_goals simp_all [INVALID_INDEX_TYPE, REQUEST_IMPROPERLY_FORMATTED]
    · intro h
      exact absurd hx (by simpa using h)

/-- Sort compilation answers 305 for a sort key over a text or
unique_text column whenever the keys before it are valid (declared,
non-reserved, sortable type, asc or desc direction). -/
theorem C7_sort_text_305 (indices : List (String × String)) :
    ∀ (pre : List (String × String)) (c d : String)
      (rest : List (String × String)) (c0 : Char) (ty : String),
    (∀ p ∈ pre, (∃ q0, strHead0 p.1 = some q0 ∧ q0 ≠ '$') ∧
      (∃ ty0, indices.lookup p.1 = some ty0 ∧ ty0 ≠ "text" ∧ ty0 ≠ "unique_text") ∧
      (p.2 = "asc" ∨ p.2 = "desc")) →
    strHead0 c = some c0 → c0 ≠ '$' →
    indices.lookup c = some ty → (ty = "text" ∨ ty = "unique_text") →
    process_received_query_order indices (pre ++ (c, d) :: rest) =
      some (.FailureResult INVALID_INDEX_TYPE) := by
  intro pre
  induction pre with
  | nil =>
    intro c d rest c0 ty _ hc0 hdol hlook hty
    simp only [List.nil_append, process_received_query_order, hc0, hlook]
    rw [if_neg hdol]
    rw [if_pos hty]
  | cons p pre ih =>
    intro c d rest c0 ty hvalid hc0 hdol hlook hty
    obtain ⟨⟨q0, hq0, hq0d⟩, ⟨ty0, hty0, hty0a, hty0b⟩, hdir⟩ :=
      hvalid p (List.mem_cons_self _ _)
    have hrec := ih c d rest c0 ty
      (fun q hq => hvalid q (List.mem_cons_of_mem _ hq)) hc0 hdol hlook hty
    obtain ⟨p1, p2⟩ := p
    simp only at hq0 hty0 hdir
    simp only [List.cons_append, process_received_query_order, hq0, hty0]
    rw [if_neg hq0d]
    rw [if_neg (by simp [hty0a, hty0b])]
    rcases hdir with hd | hd <;> simp [hd, hrec]

/-- Claim C7 (amended): 305 is produced exactly on the index-type test,
which compares whether the sole operator key is the string text against
whether the column type is text or unique_text, and which runs before
the operator itself is validated, so a leaf on a text or unique_text
column with an empty, multi-key or unknown operator object also
answers 305; and a sort key over a text or unique_text column answers
305 when the keys before it are valid. -/
theorem C7_amended :
    (∀ (indices : List (String × String)) (column ty : String)
       (ops : List (String × JVal)),
      indices.lookup column = some ty →
      strHead0 column ≠ some '$' →
      (processQueryLeaf indices column ops = some (.FailureResult INVALID_INDEX_TYPE) ↔
        ((get_sole_key ops == some "text") ≠ ((ty == "text") || (ty == "unique_text"))))) ∧
    (∀ (indices pre : List (String × String)) (c d : String)
       (rest : List (String × String)) (c0 : Char) (ty : String),
      (∀ p ∈ pre, (∃ q0, strHead0 p.1 = some q0 ∧ q0 ≠ '$') ∧
        (∃ ty0, indices.lookup p.1 = some ty0 ∧ ty0 ≠ "text" ∧ ty0 ≠ "unique_text") ∧
        (p.2 = "asc" ∨ p.2 = "desc")) →
      strHead0 c = some c0 → c0 ≠ '$' →
      indices.lookup c = some ty → (ty = "text" ∨ ty = "unique_text") →
      process_received_query_order indices (pre ++ (c, d) :: rest) =
        some (.FailureResult INVALID_INDEX_TYPE)) :=
  ⟨fun indices column ty ops hlook hdollar =>
     C7_leaf_305_iff indices column ty ops hlook hdollar,
   fun indices pre c d rest c0 ty hvalid hc0 hdol hlook hty =>
     C7_sort_text_305 indices pre c d rest c0 ty hvalid hc0 hdol hlook hty⟩

/-- Witness for C7: a text operator on a sort column compiles to 305, a
numeric operator on a text column compiles to 305, an eq operator on a
sort column does not, and a sort key over a text column after a valid
sort-column key compiles to 305. -/
theorem C7_amended_witness :
    processQueryLeaf [("c", "sort")] "c" [("text", .jstr "x")] =
      some (.FailureResult INVALID_INDEX_TYPE) ∧
    processQueryLeaf [("c", "text")] "c" [("eq", .jint 1)] =
      some (.FailureResult INVALID_INDEX_TYPE) ∧
    processQueryLeaf [("c", "sort")] "c" [("eq", .jint 1)] ≠
      some (.FailureResult INVALID_INDEX_TYPE) ∧
    process_received_query_order [("a", "sort"), ("c", "text")]
      [("a", "asc"), ("c", "desc")] = some (.FailureResult INVALID_INDEX_TYPE) := by
  refine ⟨?_, ?_, ?_, ?_⟩
  · exact (C7_amended.1 [("c", "sort")] "c" "sort" [("text", .jstr "x")]
      (by decide) (by decide)).mpr (by decide)
  · exact (C7_amended.1 [("c", "text")] "c" "text" [("eq", .jint 1)]
      (by decide) (by decide)).mpr (by decide)
  · intro h
    exact absurd ((C7_amended.1 [("c", "sort")] "c" "sort" [("eq", .jint 1)]
      (by decide) (by decide)).mp h) (by decide)
  · exact C7_amended.2 [("a", "sort"), ("c", "text")] [("a", "asc")] "c" "desc" [] 'c' "text"
      (by
        intro p hp
        rcases List.mem_cons.mp hp with heq | hmem
        · rw [heq]
          exact ⟨⟨'a', rfl, by decide⟩, ⟨"sort", by decide, by decide, by decide⟩,
            Or.inl rfl⟩
        · exact absurd hmem (List.not_mem_nil _))
      rfl (by decide) (by decide) (Or.inl rfl)

/-- Flattening the 16-byte chunks of a byte string gives it back. -/
theorem chunk16_flatten (bs : List Nat) : (chunk16 bs).flatten = bs := by
  induction bs using chunk16.induct with
  | case1 => simp [chunk16]
  | case2 bs hne ih =>
    rw [chunk16]
    rw [dif_neg hne]
    simp only [List.flatten_cons, ih]
    exact List.take_append_drop 16 bs

/-- Chunking a byte string whose length is a positive multiple of 16
produces blocks of length 16. -/
theorem chunk16_blocks_16 (bs : List Nat) (h : bs.length % 16 = 0) :
    ∀ b ∈ chunk16 bs, b.length = 16 := by
  induction bs using chunk16.induct with
  | case1 => simp [chunk16]
  | case2 bs hne ih =>
    have hpos : 0 < bs.length := List.length_pos.mpr hne
    have h16 : 16 ≤ bs.length := by omega
    intro b hb
    rw [chunk16, dif_neg hne] at hb
    rcases List.mem_cons.mp hb with heq | hmem
    · rw [heq, List.length_take]; omega
    · exact ih (by rw [List.length_drop]; omega) b hmem

/-- Chunking the flattening of a list of 16-byte blocks gives the
blocks back. -/
theorem chunk16_flatten_blocks (bl : List (List Nat))
    (h : ∀ b ∈ bl, b.length = 16) : chunk16 bl.flatten = bl := by
  induction bl with
  | nil => simp [chunk16]
  | cons b rest ih =>
    have hb : b.length = 16 := h b (List.mem_cons_self _ _)
    have hne : b ++ rest.flatten ≠ [] := by
      intro hx
      have := congrArg List.length hx
      simp [hb] at this
    rw [List.flatten_cons, chunk16, dif_neg hne]
    rw [List.take_left' hb, List.drop_left' hb]
    rw [ih (fun q hq => h q (List.mem_cons_of_mem _ hq))]

/-- Xor of byte strings of equal length cancels on the right. -/
theorem xorBytes_cancel (a b : List Nat) (h : a.length = b.length) :
    xorBytes (xorBytes a b) b = a := by
  induction a generalizing b with
  | nil => simp [xorBytes]
  | cons x xs ih =>
    rcases b with _ | ⟨y, ys⟩
    · simp at h
    · simp only [xorBytes, List.zipWith_cons_cons]
      refine List.cons_eq_cons.mpr ⟨Nat.xor_cancel_right y x, ?_⟩
      have := ih ys (by simpa using h)
      simpa [xorBytes] using this

/-- The length of an xor of byte strings. -/
theorem xorBytes_length (a b : List Nat) :
    (xorBytes a b).length = min a.length b.length := by
  simp [xorBytes]

/-- CBC decryption undoes CBC encryption over 16-byte blocks when the
block function pair is inverse and length preserving. -/
theorem cbcDec_cbcEnc (enc dec : List Nat → List Nat)
    (hdec : ∀ b, b.length = 16 → dec (enc b) = b)
    (hlen : ∀ b, b.length = 16 → (enc b).length = 16)
    (prev : List Nat) (hprev : prev.length = 16)
    (blocks : List (List Nat)) (hblocks : ∀ b ∈ blocks, b.length = 16) :
    cbcDecBlocks dec prev (cbcEncBlocks enc prev blocks) = blocks := by
  induction blocks generalizing prev with
  | nil => simp [cbcEncBlocks, cbcDecBlocks]
  | cons b rest ih =>
    have hb : b.length = 16 := hblocks b (List.mem_cons_self _ _)
    have hxb : (xorBytes b prev).length = 16 := by
      rw [xorBytes_length, hb, hprev]; rfl
    simp only [cbcEncBlocks, cbcDecBlocks]
    rw [hdec _ hxb]
    rw [xorBytes_cancel b prev (by rw [hb, hprev])]
    rw [ih (enc (xorBytes b prev)) (hlen _ hxb)
      (fun q hq => hblocks q (List.mem_cons_of_mem _ hq))]

/-- The padded length is the next positive multiple of 16. -/
theorem ansix923Pad_length (bs : List Nat) :
    (ansix923Pad bs).length = bs.length + (16 - bs.length % 16) := by
  have hk : 1 ≤ 16 - bs.length % 16 := by
    have := Nat.mod_lt bs.length (show 0 < 16 by omega)
    omega
  simp [ansix923Pad]
  omega

/-- The padded length is a multiple of 16. -/
theorem ansix923Pad_length_mod (bs : List Nat) :
    (ansix923Pad bs).length % 16 = 0 := by
  rw [ansix923Pad_length]
  have := Nat.mod_lt bs.length (show 0 < 16 by omega)
  omega

/-- Unpadding undoes padding. -/
theorem ansix923Unpad_pad (bs : List Nat) :
    ansix923Unpad (ansix923Pad bs) = some bs := by
  have hmod := Nat.mod_lt bs.length (show 0 < 16 by omega)
  have hlast : (ansix923Pad bs).getLast? = some (16 - bs.length % 16) := by
    rw [ansix923Pad]
    exact List.getLast?_concat _
  simp only [ansix923Unpad, hlast]
  rw [if_neg (by rw [ansix923Pad_length]; omega)]
  rw [ansix923Pad_length]
  rw [show bs.length + (16 - bs.length % 16) - (16 - bs.length % 16) = bs.length by omega]
  rw [ansix923Pad]
  rw [show bs ++ List.replicate (16 - bs.length % 16 - 1) 0 ++ [16 - bs.length % 16] =
    bs ++ (List.replicate (16 - bs.length % 16 - 1) 0 ++ [16 - bs.length % 16]) from
    List.append_assoc ..]
  rw [List.take_left' rfl]

/-- The blocks CBC encryption produces are 16 bytes long when the
block function is length preserving, the chain starts from a 16-byte
block and the input blocks are 16 bytes long. -/
theorem cbcEncBlocks_length (enc : List Nat → List Nat)
    (hlen : ∀ b, b.length = 16 → (enc b).length = 16) :
    ∀ (prev : List Nat), prev.length = 16 → ∀ (bl : List (List Nat)),
    (∀ b ∈ bl, b.length = 16) →
    ∀ b ∈ cbcEncBlocks enc prev bl, b.length = 16 := by
  intro prev hprev bl
  induction bl generalizing prev with
  | nil => intro _ b hb; simp [cbcEncBlocks] at hb
  | cons x xs ih =>
    intro hbl b hb
    have hx : x.length = 16 := hbl x (List.mem_cons_self _ _)
    have hxx : (xorBytes x prev).length = 16 := by
      rw [xorBytes_length, hx, hprev]; rfl
    simp only [cbcEncBlocks] at hb
    rcases List.mem_cons.mp hb with heq | hmem
    · rw [heq]; exact hlen _ hxx
    · exact ih (enc (xorBytes x prev)) (hlen _ hxx)
        (fun q hq => hbl q (List.mem_cons_of_mem _ hq)) b hmem

/-- Claim C9: decoding the payload envelope produced for a plaintext
under a keyring returns the plaintext, given the interface contracts of
the external primitives: the block cipher pair is inverse and length
preserving on 16-byte blocks, base64 decoding undoes encoding, JSON
parsing of the UTF-8 bytes undoes serialization, and the drawn
initialization vector has 16 bytes. -/
theorem C9_envelope_roundtrip {α β : Type} (P : EnvelopePrims α β) (s : α)
    (hdec : ∀ b, b.length = 16 → P.aesDec (P.aesEnc b) = b)
    (hlen : ∀ b, b.length = 16 → (P.aesEnc b).length = 16)
    (hb64 : ∀ bs, P.b64decode (P.b64encode bs) = bs)
    (hjson : ∀ a, P.loadBytes (P.dumpBytes a) = a)
    (hiv : P.iv.length = 16) :
    process_received_data_envelope P (process_sent_data_envelope P s) = some s := by
  rw [process_sent_data_envelope, process_received_data_envelope]
  simp only [hb64]
  rw [List.take_left' hiv, List.drop_left' hiv]
  have hblocks : ∀ b ∈ chunk16 (ansix923Pad (P.dumpBytes s)), b.length = 16 :=
    chunk16_blocks_16 _ (ansix923Pad_length_mod _)
  rw [chunk16_flatten_blocks _
    (cbcEncBlocks_length P.aesEnc hlen P.iv hiv _ hblocks)]
  rw [cbcDec_cbcEnc P.aesEnc P.aesDec hdec hlen P.iv hiv _ hblocks]
  rw [chunk16_flatten]
  simp only [ansix923Unpad_pad, hjson]

/-- Witness for C9: the roundtrip theorem applied to the identity
primitives and the plaintext 42. -/
theorem C9_envelope_roundtrip_witness :
    process_received_data_envelope idPrims (process_sent_data_envelope idPrims 42) =
      some 42 :=
  C9_envelope_roundtrip idPrims 42 (fun _ _ => rfl) (fun _ h => h)
    (fun _ => rfl) (fun _ => rfl) rfl

/-- A compiled field path over a column resolves to the column of the
index map. -/
theorem rowField_index (r : StoredRow) (c : String) :
    rowField r ("index." ++ c) = (r.index).lookup c := by
  have hdata : ("index." ++ c).toList = 'i' :: 'n' :: 'd' :: 'e' :: 'x' :: '.' :: c.toList := by
    have : ("index." ++ c).data = "index.".data ++ c.data := String.data_append ..
    simpa [String.toList] using this
  rw [rowField, hdata]
  rfl

/-- Token lists of a well-formed text leaf evaluate the same through
the compiled containment filter and the direct semantics. -/
theorem textTokens_all_eq (r : StoredRow) (col : String) (toks : List JVal)
    (hwf : ∀ t ∈ toks, ∃ s, t = JVal.jstr s) :
    (toks.map pyStr).all (fun t => mongoEqMatch ((r.index).lookup col) (.vStr t)) =
      toks.all (fun t =>
        match t with
        | .jstr s => cellMatches r col (.vStr s)
        | _ => false) := by
  induction toks with
  | nil => rfl
  | cons t rest ih =>
    obtain ⟨s, hs⟩ := hwf t (List.mem_cons_self _ _)
    subst hs
    simp only [List.map_cons, List.all_cons]
    rw [ih (fun q hq => hwf q (List.mem_cons_of_mem _ hq))]
    rfl

/-- The compiled form of a well-formed leaf evaluates, under the
backing-store semantics, to the direct semantics of the leaf. -/
theorem compile_eval_leaf (indices : List (String × String)) (col : String)
    (ops : List (String × JVal)) (F : MongoFilter)
    (hwf : wellFormedKV col (.eops ops) = true)
    (hc : processQueryLeaf indices col ops = some (.SuccessResult F))
    (r : StoredRow) : evalMongo r F = evalWireKV r col (.eops ops) := by
  have hshape : ∃ op v, ops = [(op, v)] := by
    rcases ops with _ | ⟨⟨op, v⟩, rest⟩
    · simp [wellFormedKV] at hwf
    · rcases rest with _ | ⟨p2, rest2⟩
      · exact ⟨op, v, rfl⟩
      · simp [wellFormedKV] at hwf
  obtain ⟨op, v, rfl⟩ := hshape
  have hcases : (op = "text" ∧ ((∃ s, v = JVal.jstr s) ∨
      (∃ toks, v = JVal.jarr toks ∧ ∀ t ∈ toks, ∃ s, t = JVal.jstr s))) ∨
      ((op = "eq" ∨ op = "neq" ∨ op = "lt" ∨ op = "gt" ∨ op = "lte" ∨ op = "gte") ∧
        ∃ n, v = JVal.jint n) := by
    by_cases hoptext : op = "text"
    · subst hoptext
      refine Or.inl ⟨rfl, ?_⟩
      rcases v with _ | b | n | s | toks | e
      · simp [wellFormedKV] at hwf
      · simp [wellFormedKV] at hwf
      · simp [wellFormedKV] at hwf
      · exact Or.inl ⟨s, rfl⟩
      · refine Or.inr ⟨toks, rfl, ?_⟩
        simp [wellFormedKV, List.all_eq_true] at hwf
        intro t ht
        have := hwf t ht
        rcases t with _ | b | n | s | l | e <;> simp_all
      · simp [wellFormedKV] at hwf
    · refine Or.inr ?_
      simp only [wellFormedKV, if_neg hoptext, Bool.and_eq_true] at hwf
      refine ⟨by have := hwf.1; simp at this; tauto, ?_⟩
      rcases v with _ | b | n | s | toks | e <;> simp_all
  have hsole : get_sole_key [(op, v)] = some op := rfl
  rw [processQueryLeaf] at hc
  by_cases hd : strHead0 col == some '$'
  · rw [if_pos hd] at hc; exact absurd hc (by simp)
  rw [if_neg hd] at hc
  rcases hlk : indices.lookup col with _ | ty
  · rw [hlk] at hc; exact absurd hc (by simp)
  rw [hlk] at hc
  simp only [Option.isNone_some, Bool.false_eq_true, if_false, Option.getD_some, hsole] at hc
  by_cases htc : ((some op == some "text") != ((ty == "text") || (ty == "unique_text")))
  · rw [if_pos htc] at hc; exact absurd hc (by simp)
  rw [if_neg htc] at hc
  by_cases hop0 : op = ""
  · rw [if_pos (by simp [hop0])] at hc; exact absurd hc (by simp)
  rw [if_neg (by simp [hop0])] at hc
  have hlkop : (List.lookup op [(op, v)]).getD .jnull = v := by simp [List.lookup]
  rw [hlkop] at hc
  rcases hcases with ⟨hoptext, hv⟩ | ⟨hsix, n, hv⟩
  · subst hoptext
    rw [if_neg (by decide), if_neg (by decide), if_neg (by decide), if_neg (by decide),
        if_neg (by decide), if_neg (by decide), if_pos rfl] at hc
    rcases hv with ⟨s, hv⟩ | ⟨toks, hv, htoks⟩
    · subst hv
      simp only [Option.some.injEq, DBResult.SuccessResult.injEq] at hc
      subst hc
      rcases hcell : List.lookup col r.index with _ | val <;>
        simp [evalMongo, rowField_index, evalWireKV, evalWireLeaf, cellMatches,
          mongoEqMatch, hcell, pyStr]
    · subst hv
      simp only [Option.some.injEq, DBResult.SuccessResult.injEq] at hc
      subst hc
      have hta := textTokens_all_eq r col toks htoks
      simp only [evalMongo, rowField_index]
      rw [hta]
      simp [evalWireKV, evalWireLeaf]
  · subst hv
    have hpy : pyInt (.jint n) = some n := rfl
    rcases hsix with h | h | h | h | h | h <;> subst h
    · rw [if_pos rfl] at hc
      rw [hpy] at hc
      simp only [Option.some.injEq, DBResult.SuccessResult.injEq] at hc
      subst hc
      rcases hcell : List.lookup col r.index with _ | val <;>
        simp [evalMongo, rowField_index, evalWireKV, evalWireLeaf, cellMatches,
          mongoEqMatch, hcell]
    · rw [if_neg (by decide), if_pos rfl] at hc
      rw [hpy] at hc
      simp only [Option.some.injEq, DBResult.SuccessResult.injEq] at hc
      subst hc
      rcases hcell : List.lookup col r.index with _ | val <;>
        simp [evalMongo, rowField_index, evalWireKV, evalWireLeaf, cellMatches,
          mongoEqMatch, hcell]
    · rw [if_neg (by decide), if_neg (by decide), if_pos rfl] at hc
      rw [hpy] at hc
      simp only [Option.some.injEq, DBResult.SuccessResult.injEq] at hc
      subst hc
      rcases hcell : List.lookup col r.index with _ | val
      · simp [evalMongo, rowField_index, evalWireKV, evalWireLeaf, cellInt, hcell]
      · rcases val <;>
          simp [evalMongo, rowField_index, evalWireKV, evalWireLeaf, cellInt, hcell]
    · rw [if_neg (by decide), if_neg (by decide), if_neg (by decide), if_pos rfl] at hc
      rw [hpy] at hc
      simp only [Option.some.injEq, DBResult.SuccessResult.injEq] at hc
      subst hc
      rcases hcell : List.lookup col r.index with _ | val
      · simp [evalMongo, rowField_index, evalWireKV, evalWireLeaf, cellInt, hcell]
      · rcases val <;>
          simp [evalMongo, rowField_index, evalWireKV, evalWireLeaf, cellInt, hcell]
    · rw [if_neg (by decide), if_neg (by decide), if_neg (by decide), if_neg (by decide),
          if_pos rfl] at hc
      rw [hpy] at hc
      simp only [Option.some.injEq, DBResult.SuccessResult.injEq] at hc
      subst hc
      rcases hcell : List.lookup col r.index with _ | val
      · simp [evalMongo, rowField_index, evalWireKV, evalWireLeaf, cellInt, hcell]
      · rcases val <;>
          simp [evalMongo, rowField_index, evalWireKV, evalWireLeaf, cellInt, hcell]
    · rw [if_neg (by decide), if_neg (by decide), if_neg (by decide), if_neg (by decide),
          if_neg (by decide), if_pos rfl] at hc
      rw [hpy] at hc
      simp only [Option.some.injEq, DBResult.SuccessResult.injEq] at hc
      subst hc
      rcases hcell : List.lookup col r.index with _ | val
      · simp [evalMongo, rowField_index, evalWireKV, evalWireLeaf, cellInt, hcell]
      · rcases val <;>
          simp [evalMongo, rowField_index, evalWireKV, evalWireLeaf, cellInt, hcell]

mutual

/-- Refinement of the filter compiler: on a well-formed wire predicate
the compiled filter evaluates, under the backing-store semantics, to
the direct spec semantics of the predicate. -/
theorem compile_eval_filter (indices : List (String × String)) :
    ∀ (q : WFilter) (F : MongoFilter), wellFormedFilter q = true →
    process_received_query_filter indices q = some (.SuccessResult F) →
    ∀ r, evalMongo r F = evalWire r q
  | [], F, hwf, hc => by
    exact absurd hc (by simp [process_received_query_filter])
  | [(k, v)], F, hwf, hc => by
    intro r
    rw [process_received_query_filter] at hc
    by_cases hk : k = ""
    · rw [if_pos hk] at hc; exact absurd hc (by simp)
    · rw [if_neg hk] at hc
      have hwf2 : wellFormedKV k v = true := by simpa [wellFormedFilter] using hwf
      rw [evalWire]
      exact compile_eval_kv indices k v F hwf2 hc r
  | (a, b) :: (c, d) :: rest, F, hwf, hc => by
    exact absurd hwf (by simp [wellFormedFilter])
termination_by structural q => q

/-- Refinement of the sole-key dispatch of the filter compiler. -/
theorem compile_eval_kv (indices : List (String × String)) (k : String) :
    ∀ (v : WEntry) (F : MongoFilter), wellFormedKV k v = true →
    processQueryKV indices k v = some (.SuccessResult F) →
    ∀ r, evalMongo r F = evalWireKV r k v
  | .earr subs, F, hwf, hc => by
    intro r
    rw [processQueryKV] at hc
    by_cases ha : k = "and"
    · subst ha
      have hsubs : wellFormedSubs subs = true := by simpa [wellFormedKV] using hwf
      rw [if_pos rfl] at hc
      rcases hs : processQuerySubs indices subs with _ | rs
      · rw [hs] at hc; exact absurd hc (by simp)
      rcases rs with fs | cc
      · rw [hs] at hc
        simp only [Option.some.injEq, DBResult.SuccessResult.injEq] at hc
        subst hc
        simp [evalMongo, evalWireKV,
          (compile_eval_subs indices subs fs hsubs hs r).1]
      · rw [hs] at hc; exact absurd hc (by simp)
    · rw [if_neg ha] at hc
      by_cases hb : k = "or"
      · subst hb
        have hsubs : wellFormedSubs subs = true := by simpa [wellFormedKV] using hwf
        rw [if_pos rfl] at hc
        rcases hs : processQuerySubs indices subs with _ | rs
        · rw [hs] at hc; exact absurd hc (by simp)
        rcases rs with fs | cc
        · rw [hs] at hc
          simp only [Option.some.injEq, DBResult.SuccessResult.injEq] at hc
          subst hc
          simp [evalMongo, evalWireKV,
            (compile_eval_subs indices subs fs hsubs hs r).2]
        · rw [hs] at hc; exact absurd hc (by simp)
      · rw [if_neg hb] at hc
        by_cases hc2 : k = "not_and"
        · subst hc2
          have hsubs : wellFormedSubs subs = true := by simpa [wellFormedKV] using hwf
          rw [if_pos rfl] at hc
          rcases hs : processQuerySubs indices subs with _ | rs
          · rw [hs] at hc; exact absurd hc (by simp)
          rcases rs with fs | cc
          · rw [hs] at hc
            simp only [Option.some.injEq, DBResult.SuccessResult.injEq] at hc
            subst hc
            simp [evalMongo, evalMongoAny, evalMongoAll, evalWireKV,
              (compile_eval_subs indices subs fs hsubs hs r).1]
          · rw [hs] at hc; exact absurd hc (by simp)
        · rw [if_neg hc2] at hc
          by_cases hd2 : k = "not_or"
          · subst hd2
            have hsubs : wellFormedSubs subs = true := by simpa [wellFormedKV] using hwf
            rw [if_pos rfl] at hc
            rcases hs : processQuerySubs indices subs with _ | rs
            · rw [hs] at hc; exact absurd hc (by simp)
            rcases rs with fs | cc
            · rw [hs] at hc
              simp only [Option.some.injEq, DBResult.SuccessResult.injEq] at hc
              subst hc
              simp [evalMongo, evalWireKV,
                (compile_eval_subs indices subs fs hsubs hs r).2]
            · rw [hs] at hc; exact absurd hc (by simp)
          · rw [if_neg hd2] at hc
            exact absurd hc (by simp)
  | .eops ops, F, hwf, hc => by
    intro r
    rw [processQueryKV] at hc
    by_cases ha : k = "and"
    · subst ha
      rw [if_pos rfl] at hc
      by_cases he : ops.isEmpty
      · rw [List.isEmpty_iff.mp he] at hwf
        exact absurd hwf (by simp [wellFormedKV])
      · rw [if_neg he] at hc; exact absurd hc (by simp)
    · rw [if_neg ha] at hc
      by_cases hb : k = "or"
      · subst hb
        rw [if_pos rfl] at hc
        by_cases he : ops.isEmpty
        · rw [List.isEmpty_iff.mp he] at hwf
          exact absurd hwf (by simp [wellFormedKV])
        · rw [if_neg he] at hc; exact absurd hc (by simp)
      · rw [if_neg hb] at hc
        by_cases hc2 : k = "not_and"
        · subst hc2
          rw [if_pos rfl] at hc
          by_cases he : ops.isEmpty
          · rw [List.isEmpty_iff.mp he] at hwf
            exact absurd hwf (by simp [wellFormedKV])
          · rw [if_neg he] at hc; exact absurd hc (by simp)
        · rw [if_neg hc2] at hc
          by_cases hd2 : k = "not_or"
          · subst hd2
            rw [if_pos rfl] at hc
            by_cases he : ops.isEmpty
            · rw [List.isEmpty_iff.mp he] at hwf
              exact absurd hwf (by simp [wellFormedKV])
            · rw [if_neg he] at hc; exact absurd hc (by simp)
          · rw [if_neg hd2] at hc
            exact compile_eval_leaf indices k ops F hwf hc r
termination_by structural v => v

/-- Refinement of the subquery loop: the compiled sub-filters evaluate
elementwise to the direct semantics, in conjunction and disjunction. -/
theorem compile_eval_subs (indices : List (String × String)) :
    ∀ (subs : List WFilter) (fs : List MongoFilter), wellFormedSubs subs = true →
    processQuerySubs indices subs = some (.SuccessResult fs) →
    ∀ r, evalMongoAll r fs = (evalWireSubs r subs).all id ∧
         evalMongoAny r fs = (evalWireSubs r subs).any id
  | [], fs, hwf, hc => by
    intro r
    rw [processQuerySubs] at hc
    simp only [Option.some.injEq, DBResult.SuccessResult.injEq] at hc
    subst hc
    exact ⟨rfl, rfl⟩
  | q :: qs, fs, hwf, hc => by
    intro r
    have hwf' := hwf
    simp only [wellFormedSubs, Bool.and_eq_true] at hwf'
    obtain ⟨hwq, hwqs⟩ := hwf'
    rw [processQuerySubs] at hc
    rcases hq : process_received_query_filter indices q with _ | rq
    · rw [hq] at hc; exact absurd hc (by simp)
    rcases rq with f | cc
    · rw [hq] at hc
      rcases hqs : processQuerySubs indices qs with _ | rqs
      · rw [hqs] at hc; exact absurd hc (by simp)
      rcases rqs with fs2 | cc2
      · rw [hqs] at hc
        simp only [Option.some.injEq, DBResult.SuccessResult.injEq] at hc
        subst hc
        have h1 := compile_eval_filter indices q f hwq hq r
        have h2 := compile_eval_subs indices qs fs2 hwqs hqs r
        constructor
        · simp [evalMongoAll, evalWireSubs, h1, h2.1]
        · simp [evalMongoAny, evalWireSubs, h1, h2.2]
      · rw [hqs] at hc; exact absurd hc (by simp)
    · rw [hq] at hc; exact absurd hc (by simp)
termination_by structural l => l

end

/-- The compiled sort specification of a successful sort compilation is
the one the spec prescribes. -/
theorem order_compile_spec (indices : List (String × String)) :
    ∀ (sq : List (String × String)) (S : List (String × Int)),
    process_received_query_order indices sq = some (.SuccessResult S) →
    S = specOrderSpec sq := by
  intro sq
  induction sq with
  | nil =>
    intro S h
    simp only [process_received_query_order, Option.some.injEq,
      DBResult.SuccessResult.injEq] at h
    rw [← h]; rfl
  | cons p rest ih =>
    obtain ⟨column, col_order⟩ := p
    intro S h
    rw [process_received_query_order] at h
    rcases hh : strHead0 column with _ | c0
    · simp only [hh] at h
      exact absurd h (by simp)
    simp only [hh] at h
    by_cases hdol : c0 = '$'
    · rw [if_pos hdol] at h; exact absurd h (by simp)
    rw [if_neg hdol] at h
    rcases hlk : indices.lookup column with _ | ty
    · simp only [hlk] at h
      exact absurd h (by simp)
    simp only [hlk] at h
    by_cases hty : ty = "text" ∨ ty = "unique_text"
    · rw [if_pos hty] at h; exact absurd h (by simp)
    rw [if_neg hty] at h
    by_cases hasc : col_order = "asc"
    · rw [if_pos hasc] at h
      simp only [] at h
      rcases hrec : process_received_query_order indices rest with _ | rr
      · simp only [hrec] at h
        exact absurd h (by simp)
      rcases rr with S0 | cc
      · simp only [hrec, Option.some.injEq, DBResult.SuccessResult.injEq] at h
        rw [← h, ih S0 hrec]
        simp [specOrderSpec, hasc]
      · simp only [hrec] at h
        exact absurd h (by simp)
    · rw [if_neg hasc] at h
      by_cases hdesc : col_order = "desc"
      · rw [if_pos hdesc] at h
        simp only [] at h
        rcases hrec : process_received_query_order indices rest with _ | rr
        · simp only [hrec] at h
          exact absurd h (by simp)
        rcases rr with S0 | cc
        · simp only [hrec, Option.some.injEq, DBResult.SuccessResult.injEq] at h
          rw [← h, ih S0 hrec]
          simp [specOrderSpec, hdesc]
        · simp only [hrec] at h
          exact absurd h (by simp)
      · rw [if_neg hdesc] at h
        simp only [] at h
        exact absurd h (by simp)

/-- The empty sort specification sorts nothing. -/
theorem sortRows_nil (rows : List StoredRow) : sortRows [] rows = rows := by
  induction rows with
  | nil => rfl
  | cons x l ih =>
    rw [sortRows, List.insertionSort]
    rw [show List.insertionSort _ l = l from ih]
    cases l with
    | nil => rfl
    | cons y ys => simp [List.orderedInsert, sortKeyLe]

/-- Sorting permutes the rows, so the row_id listing stays duplicate
free. -/
theorem sortRows_nodup (spec : List (String × Int)) (rows : List StoredRow)
    (h : (rows.map StoredRow.row_id).Nodup) :
    ((sortRows spec rows).map StoredRow.row_id).Nodup := by
  have hperm : List.Perm (sortRows spec rows) rows := List.perm_insertionSort _ rows
  exact ((hperm.map StoredRow.row_id).nodup_iff).mpr h

/-- Filtering keeps the row_id listing duplicate free. -/
theorem filter_nodup (p : StoredRow → Bool) (rows : List StoredRow)
    (h : (rows.map StoredRow.row_id).Nodup) :
    ((rows.filter p).map StoredRow.row_id).Nodup :=
  ((rows.filter_sublist).map StoredRow.row_id).nodup h

/-- Looking a key up past a prefix that does not hold it. -/
theorem lookup_append_none {α : Type} (l1 l2 : List (String × α)) (k : String)
    (h1 : l1.lookup k = none) : (l1 ++ l2).lookup k = l2.lookup k := by
  induction l1 with
  | nil => rfl
  | cons p l ih =>
    obtain ⟨a, b⟩ := p
    by_cases hbe : (k == a) = true
    · exfalso; simp [List.lookup, hbe] at h1
    · have hbf : (k == a) = false := by simpa using hbe
      simp only [List.cons_append, List.lookup, hbf] at h1 ⊢
      exact ih h1

/-- Inserting a fresh key appends it. -/
theorem dictInsert_fresh {α : Type} (d : List (String × α)) (k : String) (v : α)
    (h : d.lookup k = none) : dictInsert d k v = d ++ [(k, v)] := by
  simp [dictInsert, h]

/-- The query result loop without a limit renders every cursor row, in
order, when the row identifiers are fresh and duplicate free. -/
theorem queryLoop_none (l : List StoredRow) :
    ∀ acc, (∀ s ∈ l, acc.lookup s.row_id = none) →
    ((l.map StoredRow.row_id).Nodup) →
    queryLoop none l acc = acc ++ l.map renderRow := by
  induction l with
  | nil => intro acc _ _; simp [queryLoop]
  | cons r rest ih =>
    intro acc hdisj hnodup
    rw [List.map_cons] at hnodup
    have hd : acc.lookup r.row_id = none := hdisj r (List.mem_cons_self _ _)
    have hnr : r.row_id ∉ rest.map StoredRow.row_id := (List.nodup_cons.mp hnodup).1
    have htail := (List.nodup_cons.mp hnodup).2
    have hdisj2 : ∀ s ∈ rest,
        (acc ++ [(r.row_id, (⟨r.index, r.extra⟩ : QRow))]).lookup s.row_id = none := by
      intro s hs
      rw [lookup_append_none _ _ _ (hdisj s (List.mem_cons_of_mem _ hs))]
      have hne : s.row_id ≠ r.row_id := by
        intro hx
        exact hnr (hx ▸ List.mem_map_of_mem StoredRow.row_id hs)
      have hbf : (s.row_id == r.row_id) = false := beq_eq_false_iff_ne.mpr hne
      simp [List.lookup, hbf]
    have hrec := ih (acc ++ [(r.row_id, (⟨r.index, r.extra⟩ : QRow))]) hdisj2 htail
    rw [queryLoop, dictInsert_fresh _ _ _ hd, hrec]
    simp [renderRow]

/-- The query result loop with a limit renders the first rows of the
cursor, at least one and at most the limit, when the row identifiers
are fresh and duplicate free. -/
theorem queryLoop_some (n : Int) (l : List StoredRow) :
    ∀ acc, (∀ s ∈ l, acc.lookup s.row_id = none) →
    ((l.map StoredRow.row_id).Nodup) →
    queryLoop (some n) l acc =
      acc ++ (l.take (max (n - acc.length) 1).toNat).map renderRow := by
  induction l with
  | nil => intro acc _ _; simp [queryLoop]
  | cons r rest ih =>
    intro acc hdisj hnodup
    rw [List.map_cons] at hnodup
    have hd : acc.lookup r.row_id = none := hdisj r (List.mem_cons_self _ _)
    have hnr : r.row_id ∉ rest.map StoredRow.row_id := (List.nodup_cons.mp hnodup).1
    have htail := (List.nodup_cons.mp hnodup).2
    rw [queryLoop, dictInsert_fresh _ _ _ hd]
    by_cases hstop : ((acc ++ [(r.row_id, (⟨r.index, r.extra⟩ : QRow))]).length : Int) ≥ n
    · rw [if_pos hstop]
      have hlen : ((acc.length : Int) + 1) ≥ n := by
        simpa using hstop
      have hmax : (max (n - acc.length) 1).toNat = 1 := by omega
      rw [hmax]
      simp [renderRow]
    · rw [if_neg hstop]
      have hlen : ¬ ((acc.length : Int) + 1 ≥ n) := fun hx => hstop (by simpa using hx)
      have hdisj2 : ∀ s ∈ rest,
          (acc ++ [(r.row_id, (⟨r.index, r.extra⟩ : QRow))]).lookup s.row_id = none := by
        intro s hs
        rw [lookup_append_none _ _ _ (hdisj s (List.mem_cons_of_mem _ hs))]
        have hne : s.row_id ≠ r.row_id := by
          intro hx
          exact hnr (hx ▸ List.mem_map_of_mem StoredRow.row_id hs)
        have hbf : (s.row_id == r.row_id) = false := beq_eq_false_iff_ne.mpr hne
        simp [List.lookup, hbf]
      have hrec := ih (acc ++ [(r.row_id, (⟨r.index, r.extra⟩ : QRow))]) hdisj2 htail
      rw [hrec]
      have harith : (max (n - (((acc ++ [(r.row_id, (⟨r.index, r.extra⟩ : QRow))]).length : Int))) 1).toNat + 1 =
          (max (n - acc.length) 1).toNat := by
        simp only [List.length_append, List.length_cons, List.length_nil]
        push_cast
        omega
      have htake : (r :: rest).take (max (n - acc.length) 1).toNat =
          r :: rest.take (max (n - (((acc ++ [(r.row_id, (⟨r.index, r.extra⟩ : QRow))]).length : Int))) 1).toNat := by
        rw [← harith]
        rfl
      rw [htake]
      simp [renderRow]

/-- Characterization of a successful query_data call: the result is
the rendered take of the sorted, filtered rows, where the filter is the
direct spec semantics of the wire predicate, the sort is the requested
specification, and the take keeps at least one row (the limit loop of
the source breaks only after adding a row). -/
theorem query_data_characterization
    (db : DB) (owner table_name : String) (q : QueryObj) (tbl : DBTable)
    (fq : WFilter) (sq : List (String × String)) (lim : Option Int)
    (F : MongoFilter) (S : List (String × Int))
    (hdb : db.lookup (table_name, owner) = some tbl)
    (hids : (tbl.rows.map StoredRow.row_id).Nodup)
    (hfq : q.filter = some fq)
    (hwf : wellFormedFilter fq = true)
    (hF : process_received_query_filter tbl.indices fq = some (.SuccessResult F))
    (hsq : q.sort = some sq)
    (hS : process_received_query_order tbl.indices sq = some (.SuccessResult S))
    (hlim : pyLimit q.limit = some lim) :
    query_data db owner table_name q =
      some (.SuccessResult ((takeEffective lim (sortRows (specOrderSpec sq)
        (tbl.rows.filter (fun r => evalWire r fq)))).map renderRow)) := by
  simp only [query_data, hdb, hfq, hF, hsq, hS, hlim]
  have hfilter : tbl.rows.filter (fun r => evalMongo r F) =
      tbl.rows.filter (fun r => evalWire r fq) :=
    List.filter_congr (fun r _ => compile_eval_filter tbl.indices fq F hwf hF r)
  have hSspec : S = specOrderSpec sq := order_compile_spec tbl.indices sq S hS
  subst hSspec
  simp only [hfilter]
  have hnodup2 : ((sortRows (specOrderSpec sq)
      (tbl.rows.filter (fun r => evalWire r fq))).map StoredRow.row_id).Nodup :=
    sortRows_nodup _ _ (filter_nodup _ _ hids)
  by_cases hs0 : (specOrderSpec sq).length > 0
  · rw [if_pos hs0]
    rcases lim with _ | n
    · rw [queryLoop_none _ [] (by simp) hnodup2]
      simp [takeEffective]
    · rw [queryLoop_some n _ [] (by simp) hnodup2]
      simp [takeEffective]
  · rw [if_neg hs0]
    have hnil : specOrderSpec sq = [] := by
      rcases hx : specOrderSpec sq with _ | _
      · rfl
      · rw [hx] at hs0; simp at hs0
    rw [hnil] at hnodup2 ⊢
    rw [sortRows_nil]
    rw [sortRows_nil] at hnodup2
    rcases lim with _ | n
    · rw [queryLoop_none _ [] (by simp) hnodup2]
      simp [takeEffective]
    · rw [queryLoop_some n _ [] (by simp) hnodup2]
      simp [takeEffective]

/-- Claim C1 (counterexample): with a one-row table and a well-formed
query whose limit is 0, query_data answers the one matching row, not
the empty result the claimed limit application would give, because the
result loop breaks only after adding a row. -/
theorem C1_counterexample : ¬ C1_claimed_property := by
  intro h
  have := h [(("t", "u"), ⟨[("c", "sort")], [⟨"r1", [("c", .vInt 5)], "x"⟩]⟩)]
    "u" "t" ⟨some [("c", .eops [("gt", .jint 3)])], some [], some (.jint 0)⟩
    ⟨[("c", "sort")], [⟨"r1", [("c", .vInt 5)], "x"⟩]⟩
    [("c", .eops [("gt", .jint 3)])] [] (some 0)
    (by decide) (by decide) rfl (by decide)
    ⟨.mGt "index.c" 3, rfl⟩ rfl ⟨[], rfl⟩ rfl
  have hrun : query_data [(("t", "u"), ⟨[("c", "sort")], [⟨"r1", [("c", .vInt 5)], "x"⟩]⟩)]
      "u" "t" ⟨some [("c", .eops [("gt", .jint 3)])], some [], some (.jint 0)⟩ =
      some (.SuccessResult [("r1", ⟨[("c", .vInt 5)], "x"⟩)]) := by decide
  rw [hrun] at this
  exact absurd this (by decide)

/-- Claim C1 (amended): for every authenticated owner, existing table
and well-formed query command, query_data answers exactly the rows
whose indexed values satisfy the wire predicate, after the requested
sort specification and limit consumption, where a limit of n keeps the
first max(n, 1) rows: in particular a limit of 0 behaves as a limit
of 1. -/
theorem C1_query_data_amended
    (db : DB) (owner table_name : String) (q : QueryObj) (tbl : DBTable)
    (fq : WFilter) (sq : List (String × String)) (lim : Option Int)
    (F : MongoFilter) (S : List (String × Int))
    (hdb : db.lookup (table_name, owner) = some tbl)
    (hids : (tbl.rows.map StoredRow.row_id).Nodup)
    (hfq : q.filter = some fq)
    (hwf : wellFormedFilter fq = true)
    (hF : process_received_query_filter tbl.indices fq = some (.SuccessResult F))
    (hsq : q.sort = some sq)
    (hS : process_received_query_order tbl.indices sq = some (.SuccessResult S))
    (hlim : pyLimit q.limit = some lim) :
    query_data db owner table_name q =
      some (.SuccessResult ((takeEffective lim (sortRows (specOrderSpec sq)
        (tbl.rows.filter (fun r => evalWire r fq)))).map renderRow)) :=
  query_data_characterization db owner table_name q tbl fq sq lim F S
    hdb hids hfq hwf hF hsq hS hlim

/-- Witness for C1 (amended): a two-row table, a range filter, a
descending sort and limit 5. -/
theorem C1_query_data_amended_witness :
    query_data [(("t", "u"), ⟨[("c", "sort")],
        [⟨"r1", [("c", .vInt 5)], "x"⟩, ⟨"r2", [("c", .vInt 7)], "y"⟩]⟩)]
      "u" "t" ⟨some [("c", .eops [("gt", .jint 3)])], some [("c", "desc")], some (.jint 5)⟩ =
      some (.SuccessResult ((takeEffective (some 5) (sortRows (specOrderSpec [("c", "desc")])
        (([⟨"r1", [("c", .vInt 5)], "x"⟩, ⟨"r2", [("c", .vInt 7)], "y"⟩] : List StoredRow).filter
          (fun r => evalWire r [("c", .eops [("gt", .jint 3)])])))).map renderRow)) :=
  C1_query_data_amended
    [(("t", "u"), ⟨[("c", "sort")],
        [⟨"r1", [("c", .vInt 5)], "x"⟩, ⟨"r2", [("c", .vInt 7)], "y"⟩]⟩)]
    "u" "t" ⟨some [("c", .eops [("gt", .jint 3)])], some [("c", "desc")], some (.jint 5)⟩
    ⟨[("c", "sort")], [⟨"r1", [("c", .vInt 5)], "x"⟩, ⟨"r2", [("c", .vInt 7)], "y"⟩]⟩
    [("c", .eops [("gt", .jint 3)])] [("c", "desc")] (some 5)
    (.mGt "index.c" 3) [("index.c", -1)]
    (by decide) (by decide) rfl (by decide) rfl rfl rfl rfl

/-- Claim C4 (counterexample): a query with limit 0 against a one-row
table answers one row, not zero rows, because the result loop of
query_data tests the limit only after adding a row. -/
theorem C4_counterexample : ¬ C4_claimed_property := by
  intro h
  have := h [(("t", "u"), ⟨[("c", "sort")], [⟨"r1", [("c", .vInt 5)], "x"⟩]⟩)]
    "u" "t" ⟨some [("c", .eops [("gt", .jint 3)])], some [], some (.jint 0)⟩ 0
    [("r1", ⟨[("c", .vInt 5)], "x"⟩)] rfl (by decide) (by decide)
  exact absurd this (by decide)

/-- Claim C4 (amended): for a well-formed query over an existing table
with a non-null limit n, query_data answers at most max(n, 1) rows: at
most n rows for every n of at least 1, and at most one row for
limit 0. -/
theorem C4_limit_amended
    (db : DB) (owner table_name : String) (q : QueryObj) (tbl : DBTable)
    (fq : WFilter) (sq : List (String × String)) (n : Int)
    (F : MongoFilter) (S : List (String × Int))
    (hdb : db.lookup (table_name, owner) = some tbl)
    (hids : (tbl.rows.map StoredRow.row_id).Nodup)
    (hfq : q.filter = some fq)
    (hwf : wellFormedFilter fq = true)
    (hF : process_received_query_filter tbl.indices fq = some (.SuccessResult F))
    (hsq : q.sort = some sq)
    (hS : process_received_query_order tbl.indices sq = some (.SuccessResult S))
    (hlim : pyLimit q.limit = some (some n)) :
    ∀ out, query_data db owner table_name q = some (.SuccessResult out) →
      (out.length : Int) ≤ max n 1 := by
  intro out hout
  rw [query_data_characterization db owner table_name q tbl fq sq (some n) F S
    hdb hids hfq hwf hF hsq hS hlim] at hout
  simp only [Option.some.injEq, DBResult.SuccessResult.injEq] at hout
  subst hout
  rw [List.length_map]
  simp only [takeEffective]
  rw [List.length_take]
  omega

/-- Witness for C4 (amended): the two matching rows of the limit 5
query stay within max(5, 1). -/
theorem C4_limit_amended_witness :
    (([("r2", (⟨[("c", .vInt 7)], "y"⟩ : QRow)), ("r1", ⟨[("c", .vInt 5)], "x"⟩)].length : Int))
      ≤ max 5 1 :=
  C4_limit_amended
    [(("t", "u"), ⟨[("c", "sort")],
        [⟨"r1", [("c", .vInt 5)], "x"⟩, ⟨"r2", [("c", .vInt 7)], "y"⟩]⟩)]
    "u" "t" ⟨some [("c", .eops [("gt", .jint 3)])], some [("c", "desc")], some (.jint 5)⟩
    ⟨[("c", "sort")], [⟨"r1", [("c", .vInt 5)], "x"⟩, ⟨"r2", [("c", .vInt 7)], "y"⟩]⟩
    [("c", .eops [("gt", .jint 3)])] [("c", "desc")] 5
    (.mGt "index.c" 3) [("index.c", -1)]
    (by decide) (by decide) rfl (by decide) rfl rfl rfl rfl
    [("r2", ⟨[("c", .vInt 7)], "y"⟩), ("r1", ⟨[("c", .vInt 5)], "x"⟩)] (by decide)

/-- insert_datum rewritten through the seeded request seededOf. -/
theorem insert_datum_eq (ti : List (String × String)) (rows : List StoredRow)
    (datum_id : String) (datum : Datum) :
    insert_datum ti rows datum_id datum =
      (match insertLoop rows (rows.find? (fun r => r.row_id == datum_id))
          (seededOf rows datum_id datum) ti with
      | none => none
      | some (.FailureResult c) => some (.FailureResult c, rows)
      | some (.SuccessResult (indexed_data, finds)) =>
        if (seededOf rows datum_id datum).any (fun p => (indexed_data.lookup p.1).isNone) then
          some (.FailureResult ROW_HAS_EXTRA_INDEXED_VALUES, rows)
        else if finds.any (fun fo =>
            match fo with
            | some r => r.row_id != datum_id
            | none => false) then
          some (.FailureResult ROW_SAME_UNIQUES_ALREADY_EXISTS, rows)
        else
          match rows.find? (fun r => r.row_id == datum_id) with
          | some _ =>
            some (.SuccessResult (),
              replaceFirst (fun r => r.row_id == datum_id)
                ⟨datum_id, indexed_data, pyStr datum.extra⟩ rows)
          | none =>
            some (.SuccessResult (), rows ++ [⟨datum_id, indexed_data, pyStr datum.extra⟩])) :=
  rfl

/-- Success characterization of the per-column insert loop: when every
declared column is present in the request and its value coerces, the
loop succeeds and returns the collected indexed data and uniqueness
lookups. -/
theorem insertLoop_success (rows : List StoredRow) (ex : Option StoredRow)
    (dind : List (String × JVal)) :
    ∀ ti : List (String × String),
    (∀ p ∈ ti, ∃ v dv, dind.lookup p.1 = some v ∧ coerceValue p.2 v = some dv) →
    insertLoop rows ex dind ti =
      some (.SuccessResult (collectIndexed dind ti, collectFinds rows dind ti)) := by
  intro ti
  induction ti with
  | nil => intro _; rfl
  | cons p rest ih =>
    intro hall
    obtain ⟨c, ty⟩ := p
    obtain ⟨v, dv, hv, hdv⟩ := hall (c, ty) (List.mem_cons_self _ _)
    have hv2 : dind.lookup c = some v := hv
    have hdv2 : coerceValue ty v = some dv := hdv
    have hrest := ih (fun q hq => hall q (List.mem_cons_of_mem _ hq))
    have hcv : coercedValueAt dind c ty = some dv := by
      rw [coercedValueAt, hv2]; exact hdv2
    rw [insertLoop]
    rw [if_neg (by simp [hv2])]
    simp only [hv2, hdv2, hrest]
    by_cases hu : ty = "unique" ∨ ty = "unique_text"
    · simp [if_pos hu, collectIndexed, collectFinds, hcv]
    · simp [if_neg hu, collectIndexed, collectFinds, hcv]

/-- The collected indexed data carries exactly the declared columns, in
declaration order. -/
theorem collectIndexed_keys (dind : List (String × JVal)) :
    ∀ ti : List (String × String),
    (collectIndexed dind ti).map Prod.fst = ti.map Prod.fst := by
  intro ti
  induction ti with
  | nil => rfl
  | cons p rest ih =>
    obtain ⟨c, ty⟩ := p
    rw [collectIndexed]
    rcases hcv : coercedValueAt dind c ty with _ | dv <;> simp [hcv, ih]

/-- A lookup on a string association list succeeds exactly when the key
occurs among the first components. -/
theorem lookup_isSome_iff_mem_keys {α : Type} (k : String) :
    ∀ l : List (String × α), (l.lookup k).isSome = true ↔ k ∈ l.map Prod.fst := by
  intro l
  induction l with
  | nil => simp [List.lookup]
  | cons p rest ih =>
    obtain ⟨a, b⟩ := p
    by_cases hk : k = a
    · subst hk; simp [List.lookup]
    · have hbf : (k == a) = false := beq_eq_false_iff_ne.mpr hk
      simp [List.lookup, hbf, hk, ih]

/-- Looking up a declared column in the collected indexed data gives its
coerced value (with a placeholder when the coercion failed). -/
theorem collectIndexed_lookup (dind : List (String × JVal)) :
    ∀ (ti : List (String × String)) (c ty : String), ti.lookup c = some ty →
    (collectIndexed dind ti).lookup c =
      some ((coercedValueAt dind c ty).getD (.vInt 0)) := by
  intro ti
  induction ti with
  | nil => intro c ty hty; simp [List.lookup] at hty
  | cons p rest ih =>
    intro c ty hty
    obtain ⟨c0, ty0⟩ := p
    by_cases hk : c = c0
    · subst hk
      have hty0 : ty0 = ty := by simpa [List.lookup] using hty
      subst hty0
      rw [collectIndexed]
      rcases hcv : coercedValueAt dind c ty0 with _ | dv <;>
        simp [List.lookup, hcv]
    · have hbf : (c == c0) = false := beq_eq_false_iff_ne.mpr hk
      have hty2 : rest.lookup c = some ty := by
        simpa [List.lookup, hbf] using hty
      rw [collectIndexed]
      rcases hcv : coercedValueAt dind c0 ty0 with _ | dv <;>
        simp [List.lookup, hbf, hcv, ih c ty hty2]

/-- The 302 test over the collected lookups, pushed back onto the
declared columns. -/
theorem collectFinds_any (rows : List StoredRow) (dind : List (String × JVal))
    (p : Option StoredRow → Bool) :
    ∀ ti : List (String × String),
    (collectFinds rows dind ti).any p =
      ti.any (fun q => decide (q.2 = "unique" ∨ q.2 = "unique_text") &&
        p (match coercedValueAt dind q.1 q.2 with
           | some dv => mongoFindOne rows ("index." ++ q.1) dv
           | none => none)) := by
  intro ti
  induction ti with
  | nil => rfl
  | cons q rest ih =>
    obtain ⟨c, ty⟩ := q
    rw [collectFinds]
    by_cases hu : ty = "unique" ∨ ty = "unique_text"
    · rw [if_pos hu]
      have hd : (decide (ty = "unique") || decide (ty = "unique_text")) = true := by
        rcases hu with rfl | rfl <;> simp
      simp [List.any_cons, hd, ih]
    · rw [if_neg hu]
      have hd : (decide (ty = "unique") || decide (ty = "unique_text")) = false := by
        rcases ty_cases : ty with _
        simp only [Bool.or_eq_false_iff, decide_eq_false_iff_not]
        exact ⟨fun h1 => hu (Or.inl (ty_cases ▸ h1)), fun h2 => hu (Or.inr (ty_cases ▸ h2))⟩
      simp [List.any_cons, hd, ih]

/-- Under nodup keys, membership determines the lookup. -/
theorem lookup_eq_of_mem_of_nodup {α : Type} (c : String) (a : α) :
    ∀ l : List (String × α), (l.map Prod.fst).Nodup → (c, a) ∈ l →
    l.lookup c = some a := by
  intro l
  induction l with
  | nil => intro _ hm; simp at hm
  | cons p rest ih =>
    intro hn hm
    obtain ⟨k, b⟩ := p
    rcases List.mem_cons.mp hm with heq | hm2
    · obtain ⟨rfl, rfl⟩ := Prod.mk.injEq .. ▸ heq
      simp [List.lookup]
    · by_cases hk : c = k
      · subst hk
        have hn1 : c ∉ rest.map Prod.fst := (List.nodup_cons.mp hn).1
        exact absurd (List.mem_map.mpr ⟨(c, a), hm2, rfl⟩) hn1
      · have hbf : (c == k) = false := beq_eq_false_iff_ne.mpr hk
        have hn2 : (rest.map Prod.fst).Nodup := (List.nodup_cons.mp hn).2
        simp [List.lookup, hbf, ih hn2 hm2]

/-- Rendering a string list back to JSON strings and taking Python str
again is the identity. -/
theorem map_pyStr_jstr (ls : List String) : (ls.map JVal.jstr).map pyStr = ls := by
  induction ls with
  | nil => rfl
  | cons a rest ih => simp [pyStr, ih]

/-- Coercion is stable under the JSON rendering of its own output: the
value a stored row inherited coerces back to itself. -/
theorem coerceValue_roundtrip (ty : String) (v : JVal) (dv : DBValue)
    (h : coerceValue ty v = some dv) :
    coerceValue ty (dbValueToJVal dv) = some dv := by
  rw [coerceValue.eq_def] at h
  by_cases hty : ty = "sort" ∨ ty = "unique"
  · rw [if_pos hty] at h
    rcases hv : pyInt v with _ | n
    · rw [hv] at h; simp at h
    · rw [hv] at h
      simp only [Option.map_some'] at h
      obtain rfl : DBValue.vInt n = dv := Option.some_inj.mp h
      rw [coerceValue.eq_def, if_pos hty]
      rfl
  · rw [if_neg hty] at h
    rw [coerceValue.eq_def, if_neg hty]
    cases v with
    | jarr l =>
      have h2 : DBValue.vList (l.map pyStr) = dv := by simpa using h
      subst h2
      show some (DBValue.vList (((l.map pyStr).map JVal.jstr).map pyStr)) = _
      rw [map_pyStr_jstr]
    | jnull =>
      have h2 : DBValue.vStr (pyStr .jnull) = dv := by simpa using h
      subst h2
      rfl
    | jbool b =>
      have h2 : DBValue.vStr (pyStr (.jbool b)) = dv := by simpa using h
      subst h2
      rfl
    | jint n =>
      have h2 : DBValue.vStr (pyStr (.jint n)) = dv := by simpa using h
      subst h2
      rfl
    | jstr s =>
      have h2 : DBValue.vStr (pyStr (.jstr s)) = dv := by simpa using h
      subst h2
      rfl
    | jobj o =>
      have h2 : DBValue.vStr (pyStr (.jobj o)) = dv := by simpa using h
      subst h2
      rfl

/-- Backing-store equality against a non-list stored value is plain
equality. -/
theorem matchValue_nonlist (a b : DBValue) (ha : ∀ l, a ≠ .vList l) :
    matchValue a b = (a == b) := by
  cases a with
  | vList l => exact absurd rfl (ha l)
  | vInt n => cases b <;> simp [matchValue]
  | vStr s => cases b <;> simp [matchValue]

/-- Backing-store equality is reflexive. -/
theorem matchValue_self (a : DBValue) : matchValue a a = true := by
  simp [matchValue]

/-- find? over an append whose first part has no hit. -/
theorem find?_append_none {α : Type} (p : α → Bool) (l₂ : List α) :
    ∀ l₁ : List α, l₁.find? p = none → (l₁ ++ l₂).find? p = l₂.find? p := by
  intro l₁
  induction l₁ with
  | nil => intro _; rfl
  | cons a rest ih =>
    intro h
    rcases hpa : p a with _ | _
    · rw [List.find?_cons_of_neg _ (by simp [hpa])] at h
      rw [List.cons_append, List.find?_cons_of_neg _ (by simp [hpa])]
      exact ih h
    · rw [List.find?_cons_of_pos _ hpa] at h
      cases h

/-- Lookup over an append. -/
theorem lookup_append {α : Type} (l₂ : List (String × α)) (c : String) :
    ∀ l₁ : List (String × α),
    (l₁ ++ l₂).lookup c =
      (match l₁.lookup c with
       | some v => some v
       | none => l₂.lookup c) := by
  intro l₁
  induction l₁ with
  | nil => rfl
  | cons p rest ih =>
    obtain ⟨k, b⟩ := p
    rcases hck : (c == k) with _ | _
    · simp [List.lookup, hck, ih]
    · simp [List.lookup, hck]

/-- One seeding step. -/
theorem seedIndexed_cons (dindexed : List (String × JVal)) (p : String × DBValue)
    (rest : List (String × DBValue)) :
    seedIndexed dindexed (p :: rest) =
      seedIndexed (if (dindexed.lookup p.1).isSome then dindexed
        else dindexed ++ [(p.1, dbValueToJVal p.2)]) rest := rfl

/-- Lookup through the seeded request: the request value when present,
the rendered stored value otherwise. -/
theorem seedIndexed_lookup (c : String) :
    ∀ (erIndex : List (String × DBValue)) (dindexed : List (String × JVal)),
    (seedIndexed dindexed erIndex).lookup c =
      (match dindexed.lookup c with
       | some v => some v
       | none => (erIndex.lookup c).map dbValueToJVal) := by
  intro e
  induction e with
  | nil =>
    intro d
    rw [show seedIndexed d [] = d from rfl]
    rcases hd : d.lookup c with _ | v <;> simp [List.lookup, hd]
  | cons p rest ih =>
    intro d
    obtain ⟨k, dv⟩ := p
    rw [seedIndexed_cons]
    by_cases hk : (d.lookup k).isSome
    · rw [if_pos hk]
      rw [ih d]
      by_cases hck : c = k
      · subst hck
        obtain ⟨v, hv⟩ := Option.isSome_iff_exists.mp hk
        simp [hv, List.lookup]
      · have hbf : (c == k) = false := beq_eq_false_iff_ne.mpr hck
        simp [List.lookup, hbf]
    · rw [if_neg hk]
      rw [ih (d ++ [(k, dbValueToJVal dv)])]
      rw [lookup_append]
      by_cases hck : c = k
      · subst hck
        have hd : d.lookup c = none := by
          rcases h0 : d.lookup c with _ | v
          · rfl
          · exact absurd (by simp [h0]) hk
        simp [hd, List.lookup]
      · have hbf : (c == k) = false := beq_eq_false_iff_ne.mpr hck
        rcases h0 : d.lookup c with _ | v <;> simp [h0, List.lookup, hbf]

/-- Every key of the seeded request comes from the request or from the
existing row index. -/
theorem seedIndexed_keys_subset (q : String × JVal) :
    ∀ (erIndex : List (String × DBValue)) (dindexed : List (String × JVal)),
    q ∈ seedIndexed dindexed erIndex →
    q.1 ∈ dindexed.map Prod.fst ∨ q.1 ∈ erIndex.map Prod.fst := by
  intro e
  induction e with
  | nil =>
    intro d hq
    rw [show seedIndexed d [] = d from rfl] at hq
    exact Or.inl (List.mem_map.mpr ⟨q, hq, rfl⟩)
  | cons p rest ih =>
    intro d hq
    rw [seedIndexed_cons] at hq
    by_cases hk : (d.lookup p.1).isSome
    · rw [if_pos hk] at hq
      rcases ih d hq with h | h
      · exact Or.inl h
      · exact Or.inr (by simp [h])
    · rw [if_neg hk] at hq
      rcases ih (d ++ [(p.1, dbValueToJVal p.2)]) hq with h | h
      · rw [List.map_append, List.mem_append] at h
        rcases h with h | h
        · exact Or.inl h
        · simp at h
          exact Or.inr (by simp [h])
      · exact Or.inr (by simp [h])

/-- The collected indexed data depends only on the lookups of the
declared columns. -/
theorem collectIndexed_congr (d1 d2 : List (String × JVal)) :
    ∀ ti : List (String × String),
    (∀ p ∈ ti, d1.lookup p.1 = d2.lookup p.1) →
    collectIndexed d1 ti = collectIndexed d2 ti := by
  intro ti
  induction ti with
  | nil => intro _; rfl
  | cons p rest ih =>
    intro h
    obtain ⟨c, ty⟩ := p
    have hc : d1.lookup c = d2.lookup c := h (c, ty) (List.mem_cons_self _ _)
    have hcv : coercedValueAt d1 c ty = coercedValueAt d2 c ty := by
      rw [coercedValueAt, coercedValueAt, hc]
    rw [collectIndexed, collectIndexed, hcv, ih (fun q hq => h q (List.mem_cons_of_mem _ hq))]

/-- replaceFirst skips a prefix with no hit. -/
theorem replaceFirst_append_none {α : Type} (p : α → Bool) (x : α) (l₂ : List α) :
    ∀ l₁ : List α, (∀ y ∈ l₁, p y = false) →
    replaceFirst p x (l₁ ++ l₂) = l₁ ++ replaceFirst p x l₂ := by
  intro l₁
  induction l₁ with
  | nil => intro _; rfl
  | cons a rest ih =>
    intro h
    have ha : p a = false := h a (List.mem_cons_self _ _)
    simp [replaceFirst, ha, ih (fun y hy => h y (List.mem_cons_of_mem _ hy))]

/-- replaceFirst replaces an immediate hit. -/
theorem replaceFirst_cons_pos {α : Type} (p : α → Bool) (x a : α) (l : List α)
    (h : p a = true) : replaceFirst p x (a :: l) = x :: l := by
  simp [replaceFirst, h]

/-- Members of a replaceFirst image. -/
theorem mem_replaceFirst {α : Type} (p : α → Bool) (x b : α) :
    ∀ l : List α, b ∈ replaceFirst p x l → b = x ∨ b ∈ l := by
  intro l
  induction l with
  | nil => intro h; simp [replaceFirst] at h
  | cons a rest ih =>
    intro h
    rw [replaceFirst] at h
    by_cases hpa : p a = true
    · rw [if_pos hpa] at h
      rcases List.mem_cons.mp h with h2 | h2
      · exact Or.inl h2
      · exact Or.inr (List.mem_cons_of_mem _ h2)
    · rw [if_neg hpa] at h
      rcases List.mem_cons.mp h with h2 | h2
      · exact Or.inr (by simp [h2])
      · rcases ih h2 with h3 | h3
        · exact Or.inl h3
        · exact Or.inr (List.mem_cons_of_mem _ h3)

/-- Replacing a row by one with the same row_id keeps the row_id list. -/
theorem replaceFirst_map_row_id (datum_id : String) (x : StoredRow)
    (hx : x.row_id = datum_id) :
    ∀ rows : List StoredRow,
    (replaceFirst (fun r => r.row_id == datum_id) x rows).map StoredRow.row_id =
      rows.map StoredRow.row_id := by
  intro rows
  induction rows with
  | nil => rfl
  | cons a rest ih =>
    rw [replaceFirst]
    by_cases hpa : (a.row_id == datum_id) = true
    · rw [if_pos hpa]
      have ha : a.row_id = datum_id := by simpa using hpa
      simp [hx, ha]
    · rw [if_neg hpa]
      simp [ih]

/-- The 304 check never fires when every key of the request is a
declared column. -/
theorem extra_check_false (ti : List (String × String)) (dind dref : List (String × JVal))
    (hkeys : ∀ p ∈ dref, p.1 ∈ ti.map Prod.fst) :
    dref.any (fun p => ((collectIndexed dind ti).lookup p.1).isNone) = false := by
  rw [List.any_eq_false]
  intro q hq
  have hmem : q.1 ∈ (collectIndexed dind ti).map Prod.fst := by
    rw [collectIndexed_keys]; exact hkeys q hq
  have hsome := (lookup_isSome_iff_mem_keys q.1 (collectIndexed dind ti)).mpr hmem
  rcases h0 : (collectIndexed dind ti).lookup q.1 with _ | v
  · rw [h0] at hsome; simp at hsome
  · simp [h0]

/-- Inserting a row whose unique values collide with no stored row of a
different row_id preserves the cross-row uniqueness invariant. -/
theorem uniqueDistinct_insert (ti : List (String × String)) (rows rows2 : List StoredRow)
    (datum_id newExtra : String) (dind : List (String × JVal))
    (htik : (ti.map Prod.fst).Nodup)
    (hdist : uniqueDistinct ti rows)
    (hall : ∀ p ∈ ti, ∃ v dv, dind.lookup p.1 = some v ∧
        coerceValue p.2 v = some dv ∧ ∀ l, dv ≠ .vList l)
    (hnc : ∀ c ty dv, (c, ty) ∈ ti → (ty = "unique" ∨ ty = "unique_text") →
        coercedValueAt dind c ty = some dv →
        ∀ s ∈ rows, s.row_id ≠ datum_id → mongoEqMatch (s.index.lookup c) dv = false)
    (hmem2 : ∀ b ∈ rows2,
        b = (⟨datum_id, collectIndexed dind ti, newExtra⟩ : StoredRow) ∨ b ∈ rows) :
    uniqueDistinct ti rows2 := by
  intro q hq hqu r hr s hs hrs
  rcases hmem2 r hr with hrn | hro
  · subst hrn
    obtain ⟨v, dv, hv, hdv, hnl⟩ := hall q hq
    have hty : ti.lookup q.1 = some q.2 :=
      lookup_eq_of_mem_of_nodup q.1 q.2 ti htik (by rw [Prod.mk.eta]; exact hq)
    have hcv : coercedValueAt dind q.1 q.2 = some dv := by
      rw [coercedValueAt, hv]; exact hdv
    have hlk : (collectIndexed dind ti).lookup q.1 = some dv := by
      rw [collectIndexed_lookup dind ti q.1 q.2 hty, hcv]
      rfl
    rcases hmem2 s hs with hsn | hso
    · subst hsn
      exact absurd rfl hrs
    · show (match (collectIndexed dind ti).lookup q.1 with
        | some dv => mongoEqMatch (s.index.lookup q.1) dv
        | none => false) = false
      simp only [hlk]
      have hsid : s.row_id ≠ datum_id := fun h => hrs h.symm
      exact hnc q.1 q.2 dv (by rw [Prod.mk.eta]; exact hq) hqu hcv s hso hsid
  · rcases hmem2 s hs with hsn | hso
    · subst hsn
      rcases hrl : r.index.lookup q.1 with _ | dvr
      · simp [hrl]
      · simp only [hrl]
        obtain ⟨v, dv, hv, hdv, hnl⟩ := hall q hq
        have hty : ti.lookup q.1 = some q.2 :=
          lookup_eq_of_mem_of_nodup q.1 q.2 ti htik (by rw [Prod.mk.eta]; exact hq)
        have hcv : coercedValueAt dind q.1 q.2 = some dv := by
          rw [coercedValueAt, hv]; exact hdv
        have hlk : (collectIndexed dind ti).lookup q.1 = some dv := by
          rw [collectIndexed_lookup dind ti q.1 q.2 hty, hcv]
          rfl
        show mongoEqMatch ((collectIndexed dind ti).lookup q.1) dvr = false
        rw [hlk]
        show matchValue dv dvr = false
        rw [matchValue_nonlist dv dvr hnl]
        have hrid : r.row_id ≠ datum_id := hrs
        have hsm : mongoEqMatch (r.index.lookup q.1) dv = false :=
          hnc q.1 q.2 dv (by rw [Prod.mk.eta]; exact hq) hqu hcv r hro hrid
        rw [hrl] at hsm
        have hsm2 : matchValue dvr dv = false := hsm
        have hne : ¬ dv = dvr := by
          intro he
          subst he
          rw [matchValue_self] at hsm2
          simp at hsm2
        exact beq_eq_false_iff_ne.mpr hne
    · exact hdist q hq hqu r hro s hso hrs

/-- Claim C6: within the model of the backing store, insert_datum
enforces and preserves the uniqueness invariant.  Under nodup declared
columns, nodup row ids, the invariant and scalar (non-list) values at
unique columns for the stored rows, and a seeded request whose declared
columns are all present, coerce, and coerce to scalars, with no
undeclared keys: (1) if the coerced value of some declared unique or
unique_text column is matched by a stored row whose row_id differs, the
insert fails with 302 and leaves the collection unchanged; (2) if no
stored row with a different row_id matches any unique column value, the
insert succeeds (a match against the row with the same row_id is not a
collision), and the updated collection again has nodup row ids and
satisfies the uniqueness invariant. -/
theorem C6_unique_invariant
    (ti : List (String × String)) (rows : List StoredRow)
    (datum_id : String) (datum : Datum)
    (htik : (ti.map Prod.fst).Nodup)
    (hids : (rows.map StoredRow.row_id).Nodup)
    (hdist : uniqueDistinct ti rows)
    (hscalar : scalarUniques ti rows)
    (hall : ∀ p ∈ ti, ∃ v dv, (seededOf rows datum_id datum).lookup p.1 = some v ∧
        coerceValue p.2 v = some dv ∧ ∀ l, dv ≠ .vList l)
    (hkeys : ∀ p ∈ seededOf rows datum_id datum, p.1 ∈ ti.map Prod.fst) :
    ((∃ c ty dv s, (c, ty) ∈ ti ∧ (ty = "unique" ∨ ty = "unique_text") ∧
        coercedValueAt (seededOf rows datum_id datum) c ty = some dv ∧
        s ∈ rows ∧ s.row_id ≠ datum_id ∧ mongoEqMatch (s.index.lookup c) dv = true) →
      insert_datum ti rows datum_id datum =
        some (.FailureResult ROW_SAME_UNIQUES_ALREADY_EXISTS, rows)) ∧
    ((∀ c ty dv, (c, ty) ∈ ti → (ty = "unique" ∨ ty = "unique_text") →
        coercedValueAt (seededOf rows datum_id datum) c ty = some dv →
        ∀ s ∈ rows, s.row_id ≠ datum_id → mongoEqMatch (s.index.lookup c) dv = false) →
      ∃ rows2, insert_datum ti rows datum_id datum = some (.SuccessResult (), rows2) ∧
        (rows2.map StoredRow.row_id).Nodup ∧ uniqueDistinct ti rows2) := by
  have hall2 : ∀ p ∈ ti, ∃ v dv, (seededOf rows datum_id datum).lookup p.1 = some v ∧
      coerceValue p.2 v = some dv := by
    intro p hp
    obtain ⟨v, dv, h1, h2, _⟩ := hall p hp
    exact ⟨v, dv, h1, h2⟩
  have hloop := insertLoop_success rows (rows.find? (fun r => r.row_id == datum_id))
      (seededOf rows datum_id datum) ti hall2
  have h304 := extra_check_false ti (seededOf rows datum_id datum)
      (seededOf rows datum_id datum) hkeys
  have hmain : insert_datum ti rows datum_id datum =
      (if (collectFinds rows (seededOf rows datum_id datum) ti).any (fun fo =>
          match fo with
          | some r => r.row_id != datum_id
          | none => false) then
        some (.FailureResult ROW_SAME_UNIQUES_ALREADY_EXISTS, rows)
      else
        match rows.find? (fun r => r.row_id == datum_id) with
        | some _ =>
          some (.SuccessResult (),
            replaceFirst (fun r => r.row_id == datum_id)
              ⟨datum_id, collectIndexed (seededOf rows datum_id datum) ti,
                pyStr datum.extra⟩ rows)
        | none =>
          some (.SuccessResult (),
            rows ++ [⟨datum_id, collectIndexed (seededOf rows datum_id datum) ti,
              pyStr datum.extra⟩])) := by
    rw [insert_datum_eq]
    simp only [hloop]
    rw [if_neg (by simp [h304])]
  constructor
  · rintro ⟨c, ty, dv, s, hmem, hu, hcv, hs, hsid, hsmatch⟩
    have hdvnl : ∀ l, dv ≠ .vList l := by
      obtain ⟨v, dv0, hv, hdv0, hnl⟩ := hall (c, ty) hmem
      have hcv0 : coercedValueAt (seededOf rows datum_id datum) c ty = some dv0 := by
        rw [coercedValueAt, hv]; exact hdv0
      rw [hcv] at hcv0
      injection hcv0 with hdd
      subst hdd
      exact hnl
    have hfind : ∃ r0, mongoFindOne rows ("index." ++ c) dv = some r0 := by
      have hsome : (rows.find? (fun r => mongoEqMatch (rowField r ("index." ++ c)) dv)).isSome := by
        rw [List.find?_isSome]
        exact ⟨s, hs, by rw [rowField_index]; exact hsmatch⟩
      exact Option.isSome_iff_exists.mp hsome
    obtain ⟨r0, hr0⟩ := hfind
    have hr0mem : r0 ∈ rows := List.mem_of_find?_eq_some hr0
    have hr0match : mongoEqMatch (r0.index.lookup c) dv = true := by
      have h1 := List.find?_some hr0
      rwa [rowField_index] at h1
    have hr0id : r0.row_id ≠ datum_id := by
      intro heq
      rcases h1 : r0.index.lookup c with _ | dvr
      · rw [h1] at hr0match
        exact absurd hr0match (by simp [mongoEqMatch])
      · rcases h2 : s.index.lookup c with _ | dvs
        · rw [h2] at hsmatch
          exact absurd hsmatch (by simp [mongoEqMatch])
        · have hscr := hscalar (c, ty) hmem hu r0 hr0mem
          have hscs := hscalar (c, ty) hmem hu s hs
          have hnlr : ∀ l, dvr ≠ .vList l := by
            intro l hl
            rw [h1, hl] at hscr
            simp at hscr
          have hnls : ∀ l, dvs ≠ .vList l := by
            intro l hl
            rw [h2, hl] at hscs
            simp at hscs
          have hmr : dvr = dv := by
            have h3 := hr0match
            rw [h1] at h3
            have h4 : matchValue dvr dv = true := h3
            rw [matchValue_nonlist dvr dv hnlr] at h4
            exact eq_of_beq h4
          have hms : dvs = dv := by
            have h3 := hsmatch
            rw [h2] at h3
            have h4 : matchValue dvs dv = true := h3
            rw [matchValue_nonlist dvs dv hnls] at h4
            exact eq_of_beq h4
          have hd2 := hdist (c, ty) hmem hu r0 hr0mem s hs
            (by rw [heq]; exact fun hh => hsid hh.symm)
          rw [h1] at hd2
          have hd3 : mongoEqMatch (s.index.lookup c) dvr = false := hd2
          rw [h2, hmr] at hd3
          have hd4 : matchValue dvs dv = false := hd3
          rw [hms, matchValue_self] at hd4
          simp at hd4
    have hcond : (collectFinds rows (seededOf rows datum_id datum) ti).any (fun fo =>
        match fo with
        | some r => r.row_id != datum_id
        | none => false) = true := by
      rw [collectFinds_any, List.any_eq_true]
      refine ⟨(c, ty), hmem, ?_⟩
      rw [Bool.and_eq_true]
      constructor
      · exact decide_eq_true hu
      · show (match (match coercedValueAt (seededOf rows datum_id datum) c ty with
            | some dv => mongoFindOne rows ("index." ++ c) dv
            | none => none) with
          | some r => r.row_id != datum_id
          | none => false) = true
        simp only [hcv]
        rw [hr0]
        simp [hr0id]
    rw [hmain, if_pos hcond]
  · intro hnc
    have hcond : (collectFinds rows (seededOf rows datum_id datum) ti).any (fun fo =>
        match fo with
        | some r => r.row_id != datum_id
        | none => false) = false := by
      rw [collectFinds_any, List.any_eq_false]
      intro q hq hx
      rw [Bool.and_eq_true] at hx
      obtain ⟨hx1, hx2⟩ := hx
      have hu : q.2 = "unique" ∨ q.2 = "unique_text" := of_decide_eq_true hx1
      rcases hcv : coercedValueAt (seededOf rows datum_id datum) q.1 q.2 with _ | dv
      · simp only [hcv] at hx2
        simp at hx2
      · simp only [hcv] at hx2
        rcases hf : mongoFindOne rows ("index." ++ q.1) dv with _ | r0
        · rw [hf] at hx2
          simp at hx2
        · rw [hf] at hx2
          have hr0mem : r0 ∈ rows := List.mem_of_find?_eq_some hf
          have hr0match : mongoEqMatch (r0.index.lookup q.1) dv = true := by
            have h1 := List.find?_some hf
            rwa [rowField_index] at h1
          have hr0id : r0.row_id ≠ datum_id := by simpa using hx2
          have hqm : (q.1, q.2) ∈ ti := by rw [Prod.mk.eta]; exact hq
          have hfalse := hnc q.1 q.2 dv hqm hu hcv r0 hr0mem hr0id
          rw [hfalse] at hr0match
          simp at hr0match
    rw [hmain, if_neg (by simp [hcond])]
    rcases hex : rows.find? (fun r => r.row_id == datum_id) with _ | er
    · refine ⟨rows ++ [⟨datum_id, collectIndexed (seededOf rows datum_id datum) ti,
          pyStr datum.extra⟩], by simp only [hex], ?_, ?_⟩
      · rw [List.map_append, List.nodup_append]
        refine ⟨hids, by simp, ?_⟩
        intro a ha hb
        simp at hb
        subst hb
        obtain ⟨r, hr, hrid⟩ := List.mem_map.mp ha
        have hnone := List.find?_eq_none.mp hex r hr
        exact hnone (by simp [hrid])
      · refine uniqueDistinct_insert ti rows _ datum_id (pyStr datum.extra)
          (seededOf rows datum_id datum) htik hdist hall hnc ?_
        intro b hb
        rcases List.mem_append.mp hb with h | h
        · exact Or.inr h
        · exact Or.inl (by simpa using h)
    · refine ⟨replaceFirst (fun r => r.row_id == datum_id)
          ⟨datum_id, collectIndexed (seededOf rows datum_id datum) ti,
            pyStr datum.extra⟩ rows, by simp only [hex], ?_, ?_⟩
      · rw [replaceFirst_map_row_id datum_id _ rfl rows]
        exact hids
      · refine uniqueDistinct_insert ti rows _ datum_id (pyStr datum.extra)
          (seededOf rows datum_id datum) htik hdist hall hnc ?_
        intro b hb
        exact mem_replaceFirst _ _ _ rows hb

/-- Witness for C6: a one-column unique table holding row r1 with value
5; inserting row r2 with the same value 5 fails with 302 and leaves the
collection unchanged. -/
theorem C6_witness :
    insert_datum [("u", "unique")] [⟨"r1", [("u", .vInt 5)], "x"⟩] "r2"
      ⟨[("u", .jint 5)], .jstr "e"⟩ =
      some (.FailureResult ROW_SAME_UNIQUES_ALREADY_EXISTS,
        [⟨"r1", [("u", .vInt 5)], "x"⟩]) :=
  (C6_unique_invariant [("u", "unique")] [⟨"r1", [("u", .vInt 5)], "x"⟩] "r2"
      ⟨[("u", .jint 5)], .jstr "e"⟩
      (by decide) (by decide)
      (by unfold uniqueDistinct; decide) (by unfold scalarUniques; decide)
      (by
        intro p hp
        have hp2 : p = ("u", "unique") := by simpa using hp
        subst hp2
        exact ⟨.jint 5, .vInt 5, rfl, rfl, fun l h => DBValue.noConfusion h⟩)
      (by
        intro p hp
        rw [show seededOf [⟨"r1", [("u", .vInt 5)], "x"⟩] "r2"
            ⟨[("u", .jint 5)], .jstr "e"⟩ = [("u", .jint 5)] from rfl] at hp
        have hp2 : p = ("u", .jint 5) := by simpa using hp
        subst hp2
        simp)).1
    ⟨"u", "unique", .vInt 5, ⟨"r1", [("u", .vInt 5)], "x"⟩,
      by simp, Or.inl rfl, rfl, by simp, by decide, rfl⟩

/-- On a fresh insert whose unique values match no stored row, the 302
test never fires. -/
theorem finds_check_false_fresh (ti : List (String × String)) (rows : List StoredRow)
    (datum_id : String) (dind : List (String × JVal))
    (hnc : ∀ c ty dv, (c, ty) ∈ ti → (ty = "unique" ∨ ty = "unique_text") →
        coercedValueAt dind c ty = some dv →
        ∀ s ∈ rows, mongoEqMatch (s.index.lookup c) dv = false) :
    (collectFinds rows dind ti).any (fun fo =>
        match fo with
        | some r => r.row_id != datum_id
        | none => false) = false := by
  rw [collectFinds_any, List.any_eq_false]
  intro q hq hx
  rw [Bool.and_eq_true] at hx
  obtain ⟨hx1, hx2⟩ := hx
  have hu : q.2 = "unique" ∨ q.2 = "unique_text" := of_decide_eq_true hx1
  rcases hcv : coercedValueAt dind q.1 q.2 with _ | dv
  · simp only [hcv] at hx2
    simp at hx2
  · simp only [hcv] at hx2
    have hqm : (q.1, q.2) ∈ ti := by rw [Prod.mk.eta]; exact hq
    have hold : mongoFindOne rows ("index." ++ q.1) dv = none := by
      rw [mongoFindOne, List.find?_eq_none]
      intro s hs hps
      rw [rowField_index, hnc q.1 q.2 dv hqm hu hcv s hs] at hps
      exact Bool.false_ne_true hps
    rw [hold] at hx2
    simp at hx2

/-- On an update whose unique values match no stored row other than the
row being updated, the 302 test never fires: the row with the same
row_id is not a collision. -/
theorem finds_check_false_self (ti : List (String × String)) (rows : List StoredRow)
    (newRow : StoredRow) (datum_id : String) (dind : List (String × JVal))
    (hnid : newRow.row_id = datum_id)
    (hnc : ∀ c ty dv, (c, ty) ∈ ti → (ty = "unique" ∨ ty = "unique_text") →
        coercedValueAt dind c ty = some dv →
        ∀ s ∈ rows, mongoEqMatch (s.index.lookup c) dv = false) :
    (collectFinds (rows ++ [newRow]) dind ti).any (fun fo =>
        match fo with
        | some r => r.row_id != datum_id
        | none => false) = false := by
  rw [collectFinds_any, List.any_eq_false]
  intro q hq hx
  rw [Bool.and_eq_true] at hx
  obtain ⟨hx1, hx2⟩ := hx
  have hu : q.2 = "unique" ∨ q.2 = "unique_text" := of_decide_eq_true hx1
  rcases hcv : coercedValueAt dind q.1 q.2 with _ | dv
  · simp only [hcv] at hx2
    simp at hx2
  · simp only [hcv] at hx2
    have hqm : (q.1, q.2) ∈ ti := by rw [Prod.mk.eta]; exact hq
    have hold : rows.find? (fun r => mongoEqMatch (rowField r ("index." ++ q.1)) dv) = none := by
      rw [List.find?_eq_none]
      intro s hs hps
      rw [rowField_index, hnc q.1 q.2 dv hqm hu hcv s hs] at hps
      exact Bool.false_ne_true hps
    have happ : mongoFindOne (rows ++ [newRow]) ("index." ++ q.1) dv =
        [newRow].find? (fun r => mongoEqMatch (rowField r ("index." ++ q.1)) dv) := by
      rw [mongoFindOne]
      exact find?_append_none _ _ rows hold
    rcases hnf : [newRow].find? (fun r => mongoEqMatch (rowField r ("index." ++ q.1)) dv)
        with _ | r0
    · rw [happ, hnf] at hx2
      simp at hx2
    · have hr0 : r0 = newRow := by
        have hm := List.mem_of_find?_eq_some hnf
        simpa using hm
      subst hr0
      rw [happ, hnf] at hx2
      simp [hnid] at hx2

/-- Claim C5: insert idempotence and partial-update inheritance.  For a
fresh row_id, a datum carrying exactly the declared indexed columns with
coercible values and no unique collision against the stored rows:
(1) the insert succeeds and appends the coerced row; (2) repeating the
identical insert succeeds and leaves the collection unchanged (the
re-coerced values collide only with the row itself, which is not a
collision); (3) a second insert under the same row_id carrying only some
declared columns succeeds, replaces the row in place, and stores, for
every declared column, the coerced new value when the partial datum
carries the column and the existing row value when it omits it. -/
theorem C5_insert_idempotent_partial_inherits
    (ti : List (String × String)) (rows : List StoredRow)
    (datum_id : String) (datum datum2 : Datum)
    (htik : (ti.map Prod.fst).Nodup)
    (hfresh : rows.find? (fun r => r.row_id == datum_id) = none)
    (hkeys : ∀ p ∈ datum.indexed, p.1 ∈ ti.map Prod.fst)
    (hall : ∀ p ∈ ti, ∃ v dv, datum.indexed.lookup p.1 = some v ∧
        coerceValue p.2 v = some dv)
    (hnc : ∀ c ty dv, (c, ty) ∈ ti → (ty = "unique" ∨ ty = "unique_text") →
        coercedValueAt datum.indexed c ty = some dv →
        ∀ s ∈ rows, mongoEqMatch (s.index.lookup c) dv = false)
    (hkeys2 : ∀ p ∈ datum2.indexed, p.1 ∈ ti.map Prod.fst)
    (hall2 : ∀ p ∈ ti, ∀ v, datum2.indexed.lookup p.1 = some v →
        ∃ dv, coerceValue p.2 v = some dv)
    (hnc2 : ∀ c ty dv, (c, ty) ∈ ti → (ty = "unique" ∨ ty = "unique_text") →
        coercedValueAt (seedIndexed datum2.indexed
          (collectIndexed datum.indexed ti)) c ty = some dv →
        ∀ s ∈ rows, mongoEqMatch (s.index.lookup c) dv = false) :
    insert_datum ti rows datum_id datum =
      some (.SuccessResult (), rows ++
        [⟨datum_id, collectIndexed datum.indexed ti, pyStr datum.extra⟩]) ∧
    insert_datum ti (rows ++
        [⟨datum_id, collectIndexed datum.indexed ti, pyStr datum.extra⟩]) datum_id datum =
      some (.SuccessResult (), rows ++
        [⟨datum_id, collectIndexed datum.indexed ti, pyStr datum.extra⟩]) ∧
    (insert_datum ti (rows ++
        [⟨datum_id, collectIndexed datum.indexed ti, pyStr datum.extra⟩]) datum_id datum2 =
      some (.SuccessResult (), rows ++
        [⟨datum_id, collectIndexed (seedIndexed datum2.indexed
            (collectIndexed datum.indexed ti)) ti, pyStr datum2.extra⟩]) ∧
     ∀ c ty, (c, ty) ∈ ti →
       (collectIndexed (seedIndexed datum2.indexed
           (collectIndexed datum.indexed ti)) ti).lookup c =
         (match datum2.indexed.lookup c with
          | some v => coerceValue ty v
          | none => (collectIndexed datum.indexed ti).lookup c)) := by
  have hseed1 : seededOf rows datum_id datum = datum.indexed := by
    unfold seededOf
    simp only [hfresh]
  have hrowsid : ∀ y ∈ rows, (y.row_id == datum_id) = false := by
    intro y hy
    have h1 := List.find?_eq_none.mp hfresh y hy
    simpa using h1
  have hex1 : (rows ++
      [(⟨datum_id, collectIndexed datum.indexed ti, pyStr datum.extra⟩ : StoredRow)]).find?
      (fun r => r.row_id == datum_id) =
      some ⟨datum_id, collectIndexed datum.indexed ti, pyStr datum.extra⟩ := by
    rw [find?_append_none _ _ rows hfresh]
    rw [List.find?_cons_of_pos _ (by simp)]
  have hc1 : insert_datum ti rows datum_id datum =
      some (.SuccessResult (), rows ++
        [⟨datum_id, collectIndexed datum.indexed ti, pyStr datum.extra⟩]) := by
    have hloop := insertLoop_success rows (rows.find? (fun r => r.row_id == datum_id))
        datum.indexed ti hall
    rw [insert_datum_eq, hseed1]
    simp only [hloop]
    rw [if_neg (by simp [extra_check_false ti datum.indexed datum.indexed hkeys])]
    rw [if_neg (by simp [finds_check_false_fresh ti rows datum_id datum.indexed hnc])]
    simp only [hfresh]
  have hallS : ∀ p ∈ ti, ∃ v dv,
      (seedIndexed datum.indexed (collectIndexed datum.indexed ti)).lookup p.1 = some v ∧
      coerceValue p.2 v = some dv := by
    intro p hp
    obtain ⟨v, dv, hv, hdv⟩ := hall p hp
    refine ⟨v, dv, ?_, hdv⟩
    rw [seedIndexed_lookup]
    simp only [hv]
  have hcong : collectIndexed (seedIndexed datum.indexed (collectIndexed datum.indexed ti)) ti =
      collectIndexed datum.indexed ti := by
    apply collectIndexed_congr
    intro p hp
    obtain ⟨v, dv, hv, hdv⟩ := hall p hp
    rw [seedIndexed_lookup]
    simp only [hv]
  have hseedS : seededOf (rows ++
      [⟨datum_id, collectIndexed datum.indexed ti, pyStr datum.extra⟩]) datum_id datum =
      seedIndexed datum.indexed (collectIndexed datum.indexed ti) := by
    unfold seededOf
    simp only [hex1]
  have hkeysS : ∀ p ∈ seedIndexed datum.indexed (collectIndexed datum.indexed ti),
      p.1 ∈ ti.map Prod.fst := by
    intro p hp
    rcases seedIndexed_keys_subset p _ _ hp with h | h
    · obtain ⟨q, hq, hq1⟩ := List.mem_map.mp h
      rw [← hq1]
      exact hkeys q hq
    · rw [collectIndexed_keys] at h
      exact h
  have hncS : ∀ c ty dv, (c, ty) ∈ ti → (ty = "unique" ∨ ty = "unique_text") →
      coercedValueAt (seedIndexed datum.indexed (collectIndexed datum.indexed ti)) c ty =
        some dv →
      ∀ s ∈ rows, mongoEqMatch (s.index.lookup c) dv = false := by
    intro c ty dv hm hu hcv s hs
    obtain ⟨v, dv0, hv0, hdv0⟩ := hall (c, ty) hm
    have hv : datum.indexed.lookup c = some v := hv0
    have hdv : coerceValue ty v = some dv0 := hdv0
    have hcv2 : coercedValueAt (seedIndexed datum.indexed (collectIndexed datum.indexed ti))
        c ty = some dv0 := by
      rw [coercedValueAt, seedIndexed_lookup]
      simp only [hv]
      exact hdv
    rw [hcv2] at hcv
    injection hcv with hdd
    subst hdd
    have hcvd : coercedValueAt datum.indexed c ty = some dv0 := by
      rw [coercedValueAt, hv]
      exact hdv
    exact hnc c ty dv0 hm hu hcvd s hs
  have hc2 : insert_datum ti (rows ++
      [⟨datum_id, collectIndexed datum.indexed ti, pyStr datum.extra⟩]) datum_id datum =
      some (.SuccessResult (), rows ++
        [⟨datum_id, collectIndexed datum.indexed ti, pyStr datum.extra⟩]) := by
    have hloop := insertLoop_success
        (rows ++ [(⟨datum_id, collectIndexed datum.indexed ti, pyStr datum.extra⟩ : StoredRow)])
        ((rows ++ [(⟨datum_id, collectIndexed datum.indexed ti, pyStr datum.extra⟩ : StoredRow)]).find?
          (fun r => r.row_id == datum_id))
        (seedIndexed datum.indexed (collectIndexed datum.indexed ti)) ti hallS
    have hcond := finds_check_false_self ti rows
        ⟨datum_id, collectIndexed datum.indexed ti, pyStr datum.extra⟩ datum_id
        (seedIndexed datum.indexed (collectIndexed datum.indexed ti)) rfl hncS
    rw [insert_datum_eq, hseedS]
    simp only [hloop]
    rw [if_neg (by simp [extra_check_false ti
      (seedIndexed datum.indexed (collectIndexed datum.indexed ti))
      (seedIndexed datum.indexed (collectIndexed datum.indexed ti)) hkeysS])]
    rw [if_neg (by simp [hcond])]
    simp only [hex1]
    rw [hcong]
    rw [replaceFirst_append_none _ _ _ rows hrowsid]
    rw [replaceFirst_cons_pos _ _ _ _ (by simp)]
  have hallS2 : ∀ p ∈ ti, ∃ v dv,
      (seedIndexed datum2.indexed (collectIndexed datum.indexed ti)).lookup p.1 = some v ∧
      coerceValue p.2 v = some dv := by
    intro p hp
    obtain ⟨v, dv, hv, hdv⟩ := hall p hp
    have hty : ti.lookup p.1 = some p.2 :=
      lookup_eq_of_mem_of_nodup p.1 p.2 ti htik (by rw [Prod.mk.eta]; exact hp)
    have hcvd : coercedValueAt datum.indexed p.1 p.2 = some dv := by
      rw [coercedValueAt, hv]
      exact hdv
    have hI1 : (collectIndexed datum.indexed ti).lookup p.1 = some dv := by
      rw [collectIndexed_lookup datum.indexed ti p.1 p.2 hty, hcvd]
      rfl
    rcases h2 : datum2.indexed.lookup p.1 with _ | v2
    · refine ⟨dbValueToJVal dv, dv, ?_, coerceValue_roundtrip p.2 v dv hdv⟩
      rw [seedIndexed_lookup]
      simp only [h2, hI1, Option.map_some']
    · obtain ⟨dv2, hdv2⟩ := hall2 p hp v2 h2
      refine ⟨v2, dv2, ?_, hdv2⟩
      rw [seedIndexed_lookup]
      simp only [h2]
  have hseedS2 : seededOf (rows ++
      [⟨datum_id, collectIndexed datum.indexed ti, pyStr datum.extra⟩]) datum_id datum2 =
      seedIndexed datum2.indexed (collectIndexed datum.indexed ti) := by
    unfold seededOf
    simp only [hex1]
  have hkeysS2 : ∀ p ∈ seedIndexed datum2.indexed (collectIndexed datum.indexed ti),
      p.1 ∈ ti.map Prod.fst := by
    intro p hp
    rcases seedIndexed_keys_subset p _ _ hp with h | h
    · obtain ⟨q, hq, hq1⟩ := List.mem_map.mp h
      rw [← hq1]
      exact hkeys2 q hq
    · rw [collectIndexed_keys] at h
      exact h
  have hc3 : insert_datum ti (rows ++
      [⟨datum_id, collectIndexed datum.indexed ti, pyStr datum.extra⟩]) datum_id datum2 =
      some (.SuccessResult (), rows ++
        [⟨datum_id, collectIndexed (seedIndexed datum2.indexed
            (collectIndexed datum.indexed ti)) ti, pyStr datum2.extra⟩]) := by
    have hloop := insertLoop_success
        (rows ++ [(⟨datum_id, collectIndexed datum.indexed ti, pyStr datum.extra⟩ : StoredRow)])
        ((rows ++ [(⟨datum_id, collectIndexed datum.indexed ti, pyStr datum.extra⟩ : StoredRow)]).find?
          (fun r => r.row_id == datum_id))
        (seedIndexed datum2.indexed (collectIndexed datum.indexed ti)) ti hallS2
    have hcond := finds_check_false_self ti rows
        ⟨datum_id, collectIndexed datum.indexed ti, pyStr datum.extra⟩ datum_id
        (seedIndexed datum2.indexed (collectIndexed datum.indexed ti)) rfl hnc2
    rw [insert_datum_eq, hseedS2]
    simp only [hloop]
    rw [if_neg (by simp [extra_check_false ti
      (seedIndexed datum2.indexed (collectIndexed datum.indexed ti))
      (seedIndexed datum2.indexed (collectIndexed datum.indexed ti)) hkeysS2])]
    rw [if_neg (by simp [hcond])]
    simp only [hex1]
    rw [replaceFirst_append_none _ _ _ rows hrowsid]
    rw [replaceFirst_cons_pos _ _ _ _ (by simp)]
  have hD : ∀ c ty, (c, ty) ∈ ti →
      (collectIndexed (seedIndexed datum2.indexed
          (collectIndexed datum.indexed ti)) ti).lookup c =
        (match datum2.indexed.lookup c with
         | some v => coerceValue ty v
         | none => (collectIndexed datum.indexed ti).lookup c) := by
    intro c ty hm
    have hty : ti.lookup c = some ty := lookup_eq_of_mem_of_nodup c ty ti htik hm
    obtain ⟨v, dv, hv0, hdv0⟩ := hall (c, ty) hm
    have hv : datum.indexed.lookup c = some v := hv0
    have hdv : coerceValue ty v = some dv := hdv0
    have hcvd : coercedValueAt datum.indexed c ty = some dv := by
      rw [coercedValueAt, hv]
      exact hdv
    have hI1 : (collectIndexed datum.indexed ti).lookup c = some dv := by
      rw [collectIndexed_lookup datum.indexed ti c ty hty, hcvd]
      rfl
    rw [collectIndexed_lookup _ ti c ty hty]
    rcases h2 : datum2.indexed.lookup c with _ | v2
    · have hcv2 : coercedValueAt (seedIndexed datum2.indexed
          (collectIndexed datum.indexed ti)) c ty = some dv := by
        rw [coercedValueAt, seedIndexed_lookup]
        simp only [h2, hI1, Option.map_some']
        exact coerceValue_roundtrip ty v dv hdv
      rw [hcv2]
      simp [hI1]
    · obtain ⟨dv2, hdv2⟩ := hall2 (c, ty) hm v2 h2
      have hcv2 : coercedValueAt (seedIndexed datum2.indexed
          (collectIndexed datum.indexed ti)) c ty = some dv2 := by
        rw [coercedValueAt, seedIndexed_lookup]
        simp only [h2]
        exact hdv2
      rw [hcv2]
      have hdv2b : coerceValue ty v2 = some dv2 := hdv2
      simp [hdv2b]
  exact ⟨hc1, hc2, hc3, hD⟩

/-- Witness for C5: table with sort column a and unique column u, fresh
row r1 with a=1, u=2: inserting twice is idempotent, and a partial
second datum a=9 keeps u=2 from the stored row. -/
theorem C5_witness :
    insert_datum [("a", "sort"), ("u", "unique")] [] "r1"
      ⟨[("a", .jint 1), ("u", .jint 2)], .jstr "e"⟩ =
      some (.SuccessResult (), [⟨"r1", [("a", .vInt 1), ("u", .vInt 2)], "e"⟩]) ∧
    insert_datum [("a", "sort"), ("u", "unique")]
        [⟨"r1", [("a", .vInt 1), ("u", .vInt 2)], "e"⟩] "r1"
      ⟨[("a", .jint 1), ("u", .jint 2)], .jstr "e"⟩ =
      some (.SuccessResult (), [⟨"r1", [("a", .vInt 1), ("u", .vInt 2)], "e"⟩]) ∧
    (insert_datum [("a", "sort"), ("u", "unique")]
        [⟨"r1", [("a", .vInt 1), ("u", .vInt 2)], "e"⟩] "r1"
      ⟨[("a", .jint 9)], .jstr "f"⟩ =
      some (.SuccessResult (), [⟨"r1", [("a", .vInt 9), ("u", .vInt 2)], "f"⟩]) ∧
     ∀ c ty, (c, ty) ∈ [("a", "sort"), ("u", "unique")] →
       (collectIndexed (seedIndexed [("a", JVal.jint 9)]
           (collectIndexed [("a", JVal.jint 1), ("u", JVal.jint 2)]
             [("a", "sort"), ("u", "unique")]))
           [("a", "sort"), ("u", "unique")]).lookup c =
         (match [("a", JVal.jint 9)].lookup c with
          | some v => coerceValue ty v
          | none => (collectIndexed [("a", JVal.jint 1), ("u", JVal.jint 2)]
              [("a", "sort"), ("u", "unique")]).lookup c)) :=
  C5_insert_idempotent_partial_inherits
    [("a", "sort"), ("u", "unique")] [] "r1"
    ⟨[("a", .jint 1), ("u", .jint 2)], .jstr "e"⟩ ⟨[("a", .jint 9)], .jstr "f"⟩
    (by decide)
    rfl
    (by
      intro p hp
      simp at hp
      rcases hp with rfl | rfl <;> decide)
    (by
      intro p hp
      simp at hp
      rcases hp with rfl | rfl
      · exact ⟨.jint 1, .vInt 1, rfl, rfl⟩
      · exact ⟨.jint 2, .vInt 2, rfl, rfl⟩)
    (by
      intro c ty dv h1 h2 h3 s hs
      exact absurd hs (List.not_mem_nil s))
    (by
      intro p hp
      simp at hp
      subst hp
      decide)
    (by
      intro p hp v hv
      simp at hp
      rcases hp with rfl | rfl
      · simp [List.lookup] at hv
        subst hv
        exact ⟨.vInt 9, rfl⟩
      · simp [List.lookup] at hv)
    (by
      intro c ty dv h1 h2 h3 s hs
      exact absurd hs (List.not_mem_nil s))
